import Mathlib

/-!
# Verification of the `pentaho/action/Execution` phase state machine

Shallow embedding of the action-execution state machine found in the
repository source (the `Execution` class built on `pentaho/lang/Base`):
the four-phase driver (init → will → do → finally), the reject-reason
classification, the promise control object, and the public control
surface (`execute`, `executeWill`, `done`, `reject`, `promise`).

JavaScript values relevant to the machine are modelled by `JSValue`
(with explicit truthiness), errors by `JSError` (distinguishing
`UserError`, `RuntimeError`, plain `Error`, `OperationInvalidError` and
`ArgumentInvalidTypeError` of `pentaho/lang`).  Exceptions are modelled
by every operation returning the mutated state together with an
`Option JSError` for a thrown error (JavaScript exceptions do not roll
back mutations, so the state is always returned).

Overridable hooks of subclasses (`_onPhaseInit`, `_onPhaseWill`,
`_onPhaseDo`, `_doDefault`, `_onPhaseFinally`) are modelled as scripts
of calls against the public control surface (`done`, `reject`, the
`promise` getter) possibly ending in a thrown error, which is exactly
the power a hook has over the execution's state.
-/

namespace PentahoAction

/-- Modelled from the spec: the `States` bit-flag module (`./States`) is a
dependency of the `Execution` source file that is not part of the sources
here.  Per the spec, states are bit flags whose ordinal order realises the
phase order `unstarted < init < will < do`, followed by the disjoint
terminal outcome markers `did`, `canceled`, `failed`, and an independent
`finished` marker that is OR'ed onto whichever terminal outcome is
reached. -/
def States.unstarted : Nat := 1

/-- Modelled from the spec: the `init` phase flag. -/
def States.init : Nat := 2

/-- Modelled from the spec: the `will` phase flag. -/
def States.will : Nat := 4

/-- Modelled from the spec: the `do` phase flag (written `States["do"]` in
the source; `do` is a Lean keyword, hence the trailing underscore). -/
def States.do_ : Nat := 8

/-- Modelled from the spec: the `did` terminal outcome flag. -/
def States.did : Nat := 16

/-- Modelled from the spec: the `canceled` terminal outcome flag. -/
def States.canceled : Nat := 32

/-- Modelled from the spec: the `failed` terminal outcome flag. -/
def States.failed : Nat := 64

/-- Modelled from the spec: the independent `finished` marker bit. -/
def States.finished : Nat := 128

/-- `executingUnsettledStates = States.unstarted | States.init | States.will | States["do"]`. -/
def executingUnsettledStates : Nat :=
  States.unstarted ||| States.init ||| States.will ||| States.do_

/-- `rejectedStates = States.canceled | States.failed`. -/
def rejectedStates : Nat := States.canceled ||| States.failed

/-- `settledStates = States.did | rejectedStates`. -/
def settledStates : Nat := States.did ||| rejectedStates

/-- The error objects of `pentaho/lang` that the execution machine can
produce or inspect.  `userError` stands for an instance of `UserError`
that is not a `RuntimeError`; `runtimeError` for an instance of
`RuntimeError` (which extends `UserError`); `plainError` for a plain
JavaScript `Error`; the remaining two for the structural error classes
(`OperationInvalidError`, `ArgumentInvalidTypeError`), which do not
extend `UserError`. -/
inductive JSError where
  | userError (msg : String)
  | runtimeError (msg : String)
  | plainError (msg : String)
  | operationInvalidError (msg : String)
  | argumentInvalidTypeError (argName : String) (expectedTypes : List String) (actualType : String)
deriving DecidableEq

/-- `e instanceof UserError` (in pentaho, `RuntimeError` extends `UserError`). -/
def JSError.isUserError : JSError → Bool
  | .userError _ => true
  | .runtimeError _ => true
  | _ => false

/-- `e instanceof RuntimeError`. -/
def JSError.isRuntimeError : JSError → Bool
  | .runtimeError _ => true
  | _ => false

/-- The JavaScript values a rejection reason (or an execution result) can
take, as far as the machine distinguishes them: `undefined`, `null`,
strings, numbers, booleans, `Error` instances and other (truthy,
non-`Error`) objects. -/
inductive JSValue where
  | undef
  | null
  | str (s : String)
  | num (n : Int)
  | boolean (b : Bool)
  | error (e : JSError)
  | obj
deriving DecidableEq

/-- JavaScript truthiness of a `JSValue` (what `if (reason)` tests). -/
def jsTruthy : JSValue → Bool
  | .undef => false
  | .null => false
  | .str s => s ≠ ""
  | .num n => n ≠ 0
  | .boolean b => b
  | .error _ => true
  | .obj => true

/-- JavaScript `typeof`. -/
def jsTypeof : JSValue → String
  | .undef => "undefined"
  | .null => "object"
  | .str _ => "string"
  | .num _ => "number"
  | .boolean _ => "boolean"
  | .error _ => "object"
  | .obj => "object"

/-- The reason-classification core of `__reject`: coerces a rejection
reason into an `Error` and decides between the `failed` and the
`canceled` outcome (`true` = failed).  Mirrors, line by line:

    if(!reason) { reason = "Canceled"; }
    if(typeof reason === "string") { reason = new UserError(reason); }
    else if(reason instanceof Error) {
      if(!(reason instanceof UserError) || (reason instanceof RuntimeError)) { isFail = true; }
    } else {
      reason = new ArgumentInvalidTypeError("reason", ["string", "Error"], typeof reason);
      isFail = true;
    }
-/
def classifyReason (reason : JSValue) : JSError × Bool :=
  let reason := if jsTruthy reason then reason else JSValue.str "Canceled"
  match reason with
  | .str s => (JSError.userError s, false)
  | .error e => (e, !e.isUserError || e.isRuntimeError)
  | v => (JSError.argumentInvalidTypeError "reason" ["string", "Error"] (jsTypeof v), true)

/-- Ghost marker for one invocation of a phase hook
(`_onPhaseInit`, `_onPhaseWill`, `_onPhaseDo`, `_onPhaseFinally`). -/
inductive Phase where
  | init
  | will
  | doPhase
  | finalPhase
deriving DecidableEq

/-- The settlement status of the promise held by the promise control
object.  `rejectedWith` carries an `Option JSError` because the promise
is rejected with the raw `__error` field (`null` when never set). -/
inductive PromiseSt where
  | pending
  | resolved (v : JSValue)
  | rejectedWith (e : Option JSError)
deriving DecidableEq

/-- The promise control object (`{promise, resolve, reject}`).  `gen` is a
ghost creation counter used to express that the lazily created control is
created once and cached (object identity). -/
structure PromiseControl where
  gen : Nat
  st : PromiseSt
deriving DecidableEq

/-- The mutable state of one `Execution` instance.

`state`, `isInside`, `result`, `error`, `promiseControl` embed the
source fields `__state`, `__isInside`, `__result`, `__error`,
`__promiseControl` (`error = none` embeds `null`).  `actionFrozen`
records the `Object.freeze` performed by `_lockAction`.  The remaining
fields are ghost observables: `promiseGen` counts promise-control
creations (object identity), `log` collects `logger.warn` output,
`debugWarn` is the fixed `debugMgr.testLevel(DebugLevels.warn, module)`
configuration, and `hookRuns` records each phase-hook invocation. -/
structure ExecState where
  state : Nat
  isInside : Bool
  result : JSValue
  error : Option JSError
  promiseControl : Option PromiseControl
  actionFrozen : Bool
  promiseGen : Nat
  log : List String
  debugWarn : Bool
  hookRuns : List Phase
deriving DecidableEq

/-- The state set up by the constructor. -/
def execInit (debugWarn : Bool) : ExecState :=
  { state := States.unstarted
    isInside := false
    result := .undef
    error := none
    promiseControl := none
    actionFrozen := false
    promiseGen := 0
    log := []
    debugWarn := debugWarn
    hookRuns := [] }

-- Error messages of the source module.
def MSG_STATE_EXECUTION_REENTRY : String := "This method can not be called during execution."

def MSG_STATE_EXECUTE : String := "This method can not be called after the 'will' phase."

def MSG_STATE_DONE : String := "The `done` method can only be called while in the 'do' state."

def MSG_STATE_REJECT : String :=
  "The `reject` method can only be called while in the 'init', 'will' or 'do' states."

namespace ExecState

/-- `__assertStates`: `none` when the state is in the given set, otherwise
the `OperationInvalidError` that is thrown. -/
def assertStates (s : ExecState) (states : Nat) (message : String) : Option JSError :=
  if s.state &&& states = 0 then some (.operationInvalidError message) else none

/-- Getter `isUnstarted`. -/
def isUnstarted (s : ExecState) : Bool := s.state == States.unstarted

/-- Getter `isSettled`. -/
def isSettled (s : ExecState) : Bool := s.state &&& settledStates != 0

/-- Getter `isRejected`. -/
def isRejected (s : ExecState) : Bool := s.state &&& rejectedStates != 0

/-- Getter `isCanceled`. -/
def isCanceled (s : ExecState) : Bool := s.state &&& States.canceled != 0

/-- Getter `isFailed`. -/
def isFailed (s : ExecState) : Bool := s.state &&& States.failed != 0

/-- Getter `isDone`. -/
def isDone (s : ExecState) : Bool := s.state &&& States.did != 0

/-- Getter `isFinished`. -/
def isFinished (s : ExecState) : Bool := s.state &&& States.finished != 0

/-- Getter `isExecuting`. -/
def isExecuting (s : ExecState) : Bool := !(s.isUnstarted || s.isFinished)

end ExecState

/-- `__createPromiseControl`: a fresh control; already settled from
`result`/`error` when the execution is finished, pending otherwise. -/
def __createPromiseControl (s : ExecState) : PromiseControl :=
  { gen := s.promiseGen + 1
    st :=
      if s.isFinished then
        if s.isDone then .resolved s.result else .rejectedWith s.error
      else .pending }

/-- The `promise` getter together with `__getPromiseControl`: returns the
cached control or creates and caches a fresh one. -/
def promiseGet (s : ExecState) : ExecState × PromiseControl :=
  match s.promiseControl with
  | some pc => (s, pc)
  | none =>
    let pc := __createPromiseControl s
    ({ s with promiseControl := some pc, promiseGen := s.promiseGen + 1 }, pc)

/-- JavaScript `resolve` on a promise: settles it if still pending. -/
def PromiseControl.resolveWith (pc : PromiseControl) (v : JSValue) : PromiseControl :=
  if pc.st = .pending then { pc with st := .resolved v } else pc

/-- JavaScript `reject` on a promise: settles it if still pending. -/
def PromiseControl.rejectWith (pc : PromiseControl) (e : Option JSError) : PromiseControl :=
  if pc.st = .pending then { pc with st := .rejectedWith e } else pc

/-- Public `done(result)`: asserts the `do` state, then records the result
and moves to `did`.  Returns the new state and a thrown error, if any. -/
def doneFn (result : JSValue) (s : ExecState) : ExecState × Option JSError :=
  match s.assertStates States.do_ MSG_STATE_DONE with
  | some e => (s, some e)
  | none => ({ s with result := result, state := States.did }, none)

/-- Private `__reject(reason)`: classifies the reason, sets the state to
`failed` or `canceled`, records the error and clears the result. -/
def __reject (reason : JSValue) (s : ExecState) : ExecState :=
  let (err, isFail) := classifyReason reason
  { s with
    state := if isFail then States.failed else States.canceled
    error := some err
    result := .undef }

/-- Reference identity `this.error === reason` between the recorded error
and a rejection reason (errors are compared by value in this model). -/
def sameErrorRef (err : Option JSError) (reason : JSValue) : Bool :=
  match err, reason with
  | some e, .error e' => e = e'
  | _, _ => false

/-- The `logger.warn` message of `__rejectOrLog` (the model keeps the
fixed prefix; the appended reason text is irrelevant to the claims). -/
def warnAfterSettledMsg (_reason : JSValue) : String :=
  "Ignoring error occurred after being marked done: "

/-- The `logger.warn` message of `__executePhaseFinally`. -/
def warnFinallyMsg (_e : JSError) : String :=
  "Ignoring error occurred during action finally phase: "

/-- `__rejectOrLog(reason)`: rejects if unsettled; otherwise logs the
reason as ignored, unless it is the very error the execution settled
with (`!reason || this.error !== reason`), gated by the debug level. -/
def __rejectOrLog (reason : JSValue) (s : ExecState) : ExecState :=
  if !s.isSettled then __reject reason s
  else if !jsTruthy reason || !sameErrorRef s.error reason then
    if s.debugWarn then { s with log := s.log ++ [warnAfterSettledMsg reason] } else s
  else s

/-- Public `reject(reason)` as observed from inside a phase hook: asserts
an unsettled state and applies `__reject`.  In the full method (`reject`
below) a rejection of an *unstarted* execution additionally runs the
finally phase; hooks only ever run with `state ≥ init`, where
`isExecuting` is true and that branch is dead, so this function is
exactly `reject` there (theorem `reject_eq_rejectHook_of_started`). -/
def rejectHook (reason : JSValue) (s : ExecState) : ExecState × Option JSError :=
  match s.assertStates executingUnsettledStates MSG_STATE_REJECT with
  | some e => (s, some e)
  | none => (__reject reason s, none)

/-- One command of a phase-hook script: a call to `done`, a call to
`reject` (each optionally wrapped in the hook's own try/catch, `swallow`),
a request of the `promise` property, or a thrown error (which ends the
hook). -/
inductive HookCmd where
  | hDone (v : JSValue) (swallow : Bool)
  | hReject (r : JSValue) (swallow : Bool)
  | hGetPromise
  | hThrow (e : JSError)
deriving DecidableEq

/-- Runs a phase-hook script against the execution state, returning the
state and the error the hook throws, if any. -/
def runScript : List HookCmd → ExecState → ExecState × Option JSError
  | [], s => (s, none)
  | .hThrow e :: _, s => (s, some e)
  | .hDone v sw :: rest, s =>
    match doneFn v s with
    | (s', none) => runScript rest s'
    | (s', some e) => if sw then runScript rest s' else (s', some e)
  | .hReject r sw :: rest, s =>
    match rejectHook r s with
    | (s', none) => runScript rest s'
    | (s', some e) => if sw then runScript rest s' else (s', some e)
  | .hGetPromise :: rest, s => runScript rest (promiseGet s).1

/-- The behaviour a concrete `Execution` subclass contributes: the
action type's `isSync` flag, the scripts of the overridable hooks, the
result of the single `_validate()` call made in the will phase (`none`
embeds `null`), and whether the async `_onPhaseDo` returns a (pending)
promise. -/
structure Hooks where
  isSync : Bool
  onInit : List HookCmd
  onWill : List HookCmd
  onDo : List HookCmd
  doDefault : List HookCmd
  onFinally : List HookCmd
  validateErrors : Option (List JSError)
  onDoReturnsPromise : Bool
deriving DecidableEq

/-- The all-default subclass: synchronous, empty hooks, valid action. -/
def trivialHooks : Hooks :=
  { isSync := true
    onInit := []
    onWill := []
    onDo := []
    doDefault := []
    onFinally := []
    validateErrors := none
    onDoReturnsPromise := false }

/-- `__executePhaseInit`: when the state is below `init`, advances to
`init` and calls `_onPhaseInit` (recorded in `hookRuns`). -/
def __executePhaseInit (H : Hooks) (s : ExecState) : ExecState × Option JSError :=
  if s.state < States.init then
    runScript H.onInit
      { s with state := States.init, hookRuns := s.hookRuns ++ [Phase.init] }
  else (s, none)

/-- `__executePhaseWill`: when the state is below `will`, advances to
`will` and validates (`_validate`).  When valid, locks the action
(`_lockAction`, i.e. `Object.freeze`) and calls `_onPhaseWill`;
otherwise rejects with the first validation error. -/
def __executePhaseWill (H : Hooks) (s : ExecState) : ExecState × Option JSError :=
  if s.state < States.will then
    let s := { s with state := States.will }
    match H.validateErrors with
    | some (e :: _) => (__reject (.error e) s, none)
    | _ =>
      runScript H.onWill
        { s with actionFrozen := true, hookRuns := s.hookRuns ++ [Phase.will] }
  else (s, none)

/-- `__executePhaseDoDefaultAsync`: runs `_doDefault` if the execution is
still unsettled (the promise it may return is awaited by the chain and
its rejection reaches `__rejectOrLog` through the attached catch,
modelled by the free `rejectOrLog` step of the step relation). -/
def __executePhaseDoDefaultAsync (H : Hooks) (s : ExecState) : ExecState × Option JSError :=
  if !s.isSettled then runScript H.doDefault s
  else (s, none)

/-- `__executePhaseDo`: when the state is below `do`, advances to `do` and
calls `_onPhaseDo`.  For a synchronous action, `_doDefault` then runs if
the execution is still unsettled and any returned promise is ignored.
For an asynchronous action, when `_onPhaseDo` returned no (or an already
moot) promise, `__executePhaseDoDefaultAsync` runs inline; otherwise it
is deferred to the returned promise's fulfilment (a separate step of the
step relation). -/
def __executePhaseDo (H : Hooks) (s : ExecState) : ExecState × Option JSError :=
  if s.state < States.do_ then
    match runScript H.onDo
        { s with state := States.do_, hookRuns := s.hookRuns ++ [Phase.doPhase] } with
    | (s, some e) => (s, some e)
    | (s, none) =>
      if H.isSync then
        if !s.isSettled then runScript H.doDefault s
        else (s, none)
      else
        if !H.onDoReturnsPromise || s.isSettled then __executePhaseDoDefaultAsync H s
        else (s, none)
  else (s, none)

/-- The tail of `__executePhaseFinally`, entered once the execution is
settled: calls `_onPhaseFinally` (recorded in `hookRuns`) catching and
logging any error it throws, sets the `finished` bit, and settles the
promise control if one was requested. -/
def __executePhaseFinallyCore (H : Hooks) (s : ExecState) : ExecState :=
  let s := { s with hookRuns := s.hookRuns ++ [Phase.finalPhase] }
  let s :=
    match runScript H.onFinally s with
    | (s, none) => s
    | (s, some ex) =>
      if s.debugWarn then { s with log := s.log ++ [warnFinallyMsg ex] } else s
  let s := { s with state := s.state ||| States.finished }
  match s.promiseControl with
  | none => s
  | some pc =>
    if s.isDone then { s with promiseControl := some (pc.resolveWith s.result) }
    else { s with promiseControl := some (pc.rejectWith s.error) }

/-- `__executePhaseFinally`: when not yet finished, auto-fulfils via
`done()` if unsettled (whose `OperationInvalidError` propagates in the
out-of-contract case where the state is before `do`), then runs
`__executePhaseFinallyCore`. -/
def __executePhaseFinally (H : Hooks) (s : ExecState) : ExecState × Option JSError :=
  if s.state < States.finished then
    match (if !s.isSettled then doneFn .undef s else (s, none)) with
    | (s, some e) => (s, some e)
    | (s, none) => (__executePhaseFinallyCore H s, none)
  else (s, none)

/-- `__callInside(fun)`: throws on re-entry; otherwise runs `fun` with
`__isInside` set, clearing it afterwards (a thrown error leaves it set,
as in the source). -/
def __callInside (f : ExecState → ExecState × Option JSError) (s : ExecState) :
    ExecState × Option JSError :=
  if s.isInside then (s, some (.operationInvalidError MSG_STATE_EXECUTION_REENTRY))
  else
    match f { s with isInside := true } with
    | (s', none) => ({ s' with isInside := false }, none)
    | (s', some e) => (s', some e)

/-- The `try { init; will; do } catch(ex) { __rejectOrLog(ex) }` block
shared verbatim by `__executeSyncAction` and `__executeAsyncAction`. -/
def __executePhasesInitWillDo (H : Hooks) (s : ExecState) : ExecState :=
  match __executePhaseInit H s with
  | (s, some e) => __rejectOrLog (.error e) s
  | (s, none) =>
    match __executePhaseWill H s with
    | (s, some e) => __rejectOrLog (.error e) s
    | (s, none) =>
      match __executePhaseDo H s with
      | (s, some e) => __rejectOrLog (.error e) s
      | (s, none) => s

/-- `__executeSyncAction`: `try { init; will; do } catch(ex)
{ __rejectOrLog(ex) }` followed by the finally phase. -/
def __executeSyncAction (H : Hooks) (s : ExecState) : ExecState × Option JSError :=
  __executePhaseFinally H (__executePhasesInitWillDo H s)

/-- `__executeAsyncAction`: the synchronous part — `try { init; will;
Promise.resolve(do)... } catch(ex) { __rejectOrLog(ex) }`.  The deferred
continuations it schedules (`__executePhaseDoDefaultAsync` on the do
promise's fulfilment, `__rejectOrLog` on the chain's rejection, and the
finally phase bound through `__callInside`) are the `asyncDoDefault`,
`rejectOrLog` and `asyncFinally` steps of the step relation. -/
def __executeAsyncAction (H : Hooks) (s : ExecState) : ExecState × Option JSError :=
  (__executePhasesInitWillDo H s, none)

/-- Public `execute()`: throws past the `will` phase; otherwise runs the
synchronous or (the synchronous part of) the asynchronous driver inside
the re-entrancy guard. -/
def execute (H : Hooks) (s : ExecState) : ExecState × Option JSError :=
  if States.will < s.state then (s, some (.operationInvalidError MSG_STATE_EXECUTE))
  else
    __callInside
      (fun s => if H.isSync then __executeSyncAction H s else __executeAsyncAction H s) s

/-- The `try { init; will } catch(ex) { __rejectOrLog(ex) }` block of
`executeWill`. -/
def __executePhasesInitWill (H : Hooks) (s : ExecState) : ExecState :=
  match __executePhaseInit H s with
  | (s, some e) => __rejectOrLog (.error e) s
  | (s, none) =>
    match __executePhaseWill H s with
    | (s, some e) => __rejectOrLog (.error e) s
    | (s, none) => s

/-- Public `executeWill()`: throws past the `will` phase; otherwise runs
`try { init; will } catch(ex) { __rejectOrLog(ex) }` inside the
re-entrancy guard. -/
def executeWill (H : Hooks) (s : ExecState) : ExecState × Option JSError :=
  if States.will < s.state then (s, some (.operationInvalidError MSG_STATE_EXECUTE))
  else __callInside (fun s => (__executePhasesInitWill H s, none)) s

/-- Public `reject(reason)`: asserts an unsettled state, rejects, and —
when the execution was not yet executing (unstarted) — runs the finally
phase synchronously within the call. -/
def reject (H : Hooks) (reason : JSValue) (s : ExecState) : ExecState × Option JSError :=
  match s.assertStates executingUnsettledStates MSG_STATE_REJECT with
  | some e => (s, some e)
  | none =>
    let wasExecuting := s.isExecuting
    let s := __reject reason s
    if !wasExecuting then __executePhaseFinally H s
    else (s, none)

/-- The deferred `promise.then(__executePhaseDoDefaultAsync)` continuation
of an asynchronous action, whose thrown errors reach `__rejectOrLog`
through the `catch` attached to the chain. -/
def asyncDoDefaultCont (H : Hooks) (s : ExecState) : ExecState :=
  match __executePhaseDoDefaultAsync H s with
  | (s, none) => s
  | (s, some e) => __rejectOrLog (.error e) s

/-- The deferred `boundFinally` continuation of an asynchronous action:
`__callInside` bound over `__executePhaseFinally`. -/
def asyncFinallyCont (H : Hooks) (s : ExecState) : ExecState × Option JSError :=
  __callInside (__executePhaseFinally H) s

/-- One observable operation on an execution, from a quiescent state: a
public API call, or one of the deferred continuations an asynchronous
`execute` schedules (those only ever run once the do phase was entered,
hence their `States.do_ ≤ s.state` guards). -/
inductive Step : ExecState → ExecState → Prop where
  | executeStep (H : Hooks) (s : ExecState) : Step s (execute H s).1
  | executeWillStep (H : Hooks) (s : ExecState) : Step s (executeWill H s).1
  | rejectStep (H : Hooks) (r : JSValue) (s : ExecState) : Step s (reject H r s).1
  | doneStep (v : JSValue) (s : ExecState) : Step s (doneFn v s).1
  | promiseStep (s : ExecState) : Step s (promiseGet s).1
  | rejectOrLogStep (r : JSValue) (s : ExecState) :
      States.do_ ≤ s.state → Step s (__rejectOrLog r s)
  | asyncDoDefaultStep (H : Hooks) (s : ExecState) :
      States.do_ ≤ s.state → Step s (asyncDoDefaultCont H s)
  | asyncFinallyStep (H : Hooks) (s : ExecState) :
      States.do_ ≤ s.state → Step s (asyncFinallyCont H s).1

/-- The states an execution created with debug configuration `dw` can
reach through any sequence of operations. -/
def Reachable (dw : Bool) (s : ExecState) : Prop :=
  Relation.ReflTransGen Step (execInit dw) s

/-! ## State invariants -/

/-- The well-formed values of the `__state` field: the four phase flags,
the three bare outcome flags, and the three outcome flags with the
`finished` bit OR'ed on. -/
def stateOK (n : Nat) : Bool :=
  n == 1 || n == 2 || n == 4 || n == 8 || n == 16 ||
  n == 32 || n == 64 || n == 144 || n == 160 || n == 192

/-- What a settled promise control must hold, per `__createPromiseControl`
and `__executePhaseFinally`: the result when done, the error otherwise. -/
def promiseExpected (s : ExecState) : PromiseSt :=
  if s.isDone then .resolved s.result else .rejectedWith s.error

/-- The promise control, when created, is pending until the execution
finishes and then settled consistently with the recorded result/error. -/
def promiseOKb (s : ExecState) : Bool :=
  match s.promiseControl with
  | none => true
  | some pc => if s.isFinished then pc.st == promiseExpected s else pc.st == .pending

/-- The reachability invariant: a well-formed state flag, a consistent
promise control, each phase hook run at most once, and a hook only ever
run once its phase was entered. -/
def Inv (s : ExecState) : Prop :=
  stateOK s.state = true ∧
  promiseOKb s = true ∧
  s.hookRuns.count Phase.init ≤ 1 ∧
  s.hookRuns.count Phase.will ≤ 1 ∧
  s.hookRuns.count Phase.doPhase ≤ 1 ∧
  s.hookRuns.count Phase.finalPhase ≤ 1 ∧
  (s.state < States.init → s.hookRuns.count Phase.init = 0) ∧
  (s.state < States.will → s.hookRuns.count Phase.will = 0) ∧
  (s.state < States.do_ → s.hookRuns.count Phase.doPhase = 0) ∧
  (s.state &&& States.finished = 0 → s.hookRuns.count Phase.finalPhase = 0)

theorem stateOK_cases {n : Nat} (h : stateOK n = true) :
    n = 1 ∨ n = 2 ∨ n = 4 ∨ n = 8 ∨ n = 16 ∨
    n = 32 ∨ n = 64 ∨ n = 144 ∨ n = 160 ∨ n = 192 := by
  simp only [stateOK, Bool.or_eq_true, beq_iff_eq] at h
  tauto

theorem inv_execInit (dw : Bool) : Inv (execInit dw) := by
  refine ⟨?_, ?_, ?_, ?_, ?_, ?_, ?_, ?_, ?_, ?_⟩ <;>
    simp [execInit, stateOK, promiseOKb, States.unstarted]

/-- What one hook command (and hence any script) may do to the state:
hook bookkeeping, debug configuration and the finished bit are untouched,
the state flag stays well formed and advances, and promise-control
consistency is preserved. -/
def ScriptPres (s t : ExecState) : Prop :=
  t.hookRuns = s.hookRuns ∧
  t.debugWarn = s.debugWarn ∧
  (stateOK s.state = true →
    stateOK t.state = true ∧
    s.state ≤ t.state ∧
    t.state &&& States.finished = s.state &&& States.finished ∧
    (promiseOKb s = true → promiseOKb t = true))

theorem ScriptPres.self (s : ExecState) : ScriptPres s s :=
  ⟨by rfl, by rfl, fun h => ⟨h, le_refl _, by rfl, fun h => h⟩⟩

theorem ScriptPres.comp {s t u : ExecState} (h₁ : ScriptPres s t) (h₂ : ScriptPres t u) :
    ScriptPres s u := by
  obtain ⟨r₁, d₁, m₁⟩ := h₁
  obtain ⟨r₂, d₂, m₂⟩ := h₂
  refine ⟨r₂.trans r₁, d₂.trans d₁, fun hOK => ?_⟩
  obtain ⟨ok₁, le₁, fin₁, p₁⟩ := m₁ hOK
  obtain ⟨ok₂, le₂, fin₂, p₂⟩ := m₂ ok₁
  exact ⟨ok₂, le₁.trans le₂, fin₂.trans fin₁, fun hp => p₂ (p₁ hp)⟩

theorem doneFn_not_do {v : JSValue} {s : ExecState} (h : s.state &&& States.do_ = 0) :
    doneFn v s = (s, some (.operationInvalidError MSG_STATE_DONE)) := by
  simp [doneFn, ExecState.assertStates, h]

theorem doneFn_do {v : JSValue} {s : ExecState} (h : ¬s.state &&& States.do_ = 0) :
    doneFn v s = ({ s with result := v, state := States.did }, none) := by
  simp [doneFn, ExecState.assertStates, h]

theorem rejectHook_settled {r : JSValue} {s : ExecState}
    (h : s.state &&& executingUnsettledStates = 0) :
    rejectHook r s = (s, some (.operationInvalidError MSG_STATE_REJECT)) := by
  simp [rejectHook, ExecState.assertStates, h]

theorem rejectHook_unsettled {r : JSValue} {s : ExecState}
    (h : ¬s.state &&& executingUnsettledStates = 0) :
    rejectHook r s = (__reject r s, none) := by
  simp [rejectHook, ExecState.assertStates, h]

theorem __reject_eq (r : JSValue) (s : ExecState) :
    __reject r s =
      { s with
        state := if (classifyReason r).2 then States.failed else States.canceled
        error := some (classifyReason r).1
        result := .undef } := by
  rcases h : classifyReason r with ⟨err, isFail⟩
  simp [__reject, h]

/-- An execution that is not finished keeps a pending promise control. -/
theorem promiseOKb_pending {s : ExecState} {pc : PromiseControl}
    (hp : promiseOKb s = true) (hpc : s.promiseControl = some pc)
    (hf : s.state &&& States.finished = 0) : pc.st = .pending := by
  simp only [promiseOKb, hpc, ExecState.isFinished, States.finished] at hp
  rw [States.finished] at hf
  simp [hf] at hp
  exact hp

theorem doneFn_scriptPres (v : JSValue) (s : ExecState) : ScriptPres s (doneFn v s).1 := by
  by_cases h : s.state &&& States.do_ = 0
  · rw [doneFn_not_do h]; exact ScriptPres.self s
  · rw [doneFn_do h]
    refine ⟨rfl, rfl, fun hOK => ?_⟩
    have h8 : s.state = 8 := by
      rcases stateOK_cases hOK with h1|h1|h1|h1|h1|h1|h1|h1|h1|h1 <;>
        rw [h1] at h <;> first | exact h1 | exact absurd (by decide) h
    refine ⟨?_, ?_, ?_, fun hp => ?_⟩
    · show stateOK States.did = true; decide
    · rw [h8]; show (8 : Nat) ≤ States.did; decide
    · rw [h8]; show States.did &&& States.finished = 8 &&& States.finished; decide
    · show promiseOKb { s with result := v, state := States.did } = true
      rcases hpc : s.promiseControl with _ | pc
      · simp [promiseOKb, hpc]
      · have hpend : pc.st = .pending :=
          promiseOKb_pending hp hpc (by rw [h8]; decide)
        simp [promiseOKb, hpc, ExecState.isFinished, States.finished, States.did, hpend]
        exact Or.inl (by decide)

theorem rejectHook_scriptPres (r : JSValue) (s : ExecState) : ScriptPres s (rejectHook r s).1 := by
  by_cases h : s.state &&& executingUnsettledStates = 0
  · rw [rejectHook_settled h]; exact ScriptPres.self s
  · rw [rejectHook_unsettled h, __reject_eq]
    refine ⟨rfl, rfl, fun hOK => ?_⟩
    have h1 : s.state = 1 ∨ s.state = 2 ∨ s.state = 4 ∨ s.state = 8 := by
      rcases stateOK_cases hOK with h1|h1|h1|h1|h1|h1|h1|h1|h1|h1 <;>
        first
          | exact Or.inl h1
          | exact Or.inr (Or.inl h1)
          | exact Or.inr (Or.inr (Or.inl h1))
          | exact Or.inr (Or.inr (Or.inr h1))
          | (rw [h1] at h; exact absurd (by decide) h)
    have hle : s.state ≤ 8 := by rcases h1 with h1|h1|h1|h1 <;> rw [h1] <;> decide
    have hfin : s.state &&& States.finished = 0 := by
      rcases h1 with h1|h1|h1|h1 <;> rw [h1] <;> decide
    refine ⟨?_, ?_, ?_, fun hp => ?_⟩
    · show stateOK (if (classifyReason r).2 then States.failed else States.canceled) = true
      cases (classifyReason r).2 <;> decide
    · show s.state ≤ (if (classifyReason r).2 then States.failed else States.canceled)
      cases (classifyReason r).2 <;> simp [States.failed, States.canceled] <;> omega
    · show (if (classifyReason r).2 then States.failed else States.canceled) &&& States.finished =
        s.state &&& States.finished
      rw [hfin]
      cases (classifyReason r).2 <;> decide
    · show promiseOKb { s with
        state := if (classifyReason r).2 then States.failed else States.canceled
        error := some (classifyReason r).1
        result := .undef } = true
      rcases hpc : s.promiseControl with _ | pc
      · simp [promiseOKb, hpc]
      · have hpend : pc.st = .pending := promiseOKb_pending hp hpc hfin
        cases (classifyReason r).2 <;>
          simp [promiseOKb, hpc, ExecState.isFinished, States.finished, States.failed,
            States.canceled, hpend] <;>
          exact Or.inl (by decide)

theorem promiseGet_scriptPres (s : ExecState) : ScriptPres s (promiseGet s).1 := by
  rcases hpc : s.promiseControl with _ | pc
  · simp only [promiseGet, hpc]
    refine ⟨rfl, rfl, fun hOK => ⟨hOK, le_refl _, rfl, fun _ => ?_⟩⟩
    by_cases hf : s.state &&& States.finished = 0 <;>
      simp [promiseOKb, __createPromiseControl, promiseExpected, ExecState.isFinished,
        ExecState.isDone, hf]
  · simp only [promiseGet, hpc]
    exact ScriptPres.self s

theorem runScript_scriptPres (c : List HookCmd) (s : ExecState) :
    ScriptPres s (runScript c s).1 := by
  induction c generalizing s with
  | nil => exact ScriptPres.self s
  | cons cmd rest ih =>
    cases cmd with
    | hThrow e => exact ScriptPres.self s
    | hDone v sw =>
      have hpres := doneFn_scriptPres v s
      rcases hd : doneFn v s with ⟨s', th⟩
      rw [hd] at hpres
      cases th with
      | none => simp only [runScript, hd]; exact hpres.comp (ih s')
      | some e =>
        simp only [runScript, hd]
        by_cases hsw : sw <;> simp only [hsw, if_true, if_false]
        · exact hpres.comp (ih s')
        · exact hpres
    | hReject r sw =>
      have hpres := rejectHook_scriptPres r s
      rcases hd : rejectHook r s with ⟨s', th⟩
      rw [hd] at hpres
      cases th with
      | none => simp only [runScript, hd]; exact hpres.comp (ih s')
      | some e =>
        simp only [runScript, hd]
        by_cases hsw : sw <;> simp only [hsw, if_true, if_false]
        · exact hpres.comp (ih s')
        · exact hpres
    | hGetPromise =>
      simp only [runScript]
      exact (promiseGet_scriptPres s).comp (ih _)

theorem settled_bits {n : Nat} (hOK : stateOK n = true) (hS : n &&& settledStates ≠ 0) :
    n &&& States.do_ = 0 ∧ n &&& executingUnsettledStates = 0 := by
  rcases stateOK_cases hOK with h|h|h|h|h|h|h|h|h|h <;> rw [h] at hS ⊢ <;>
    first | exact ⟨by decide, by decide⟩ | exact absurd (by decide) hS

/-- A settled execution is frozen against the control surface available to
hooks: `done` and `reject` throw, so a script can no longer change the
state flag, the recorded error or the result (only the promise control
can be created). -/
theorem runScript_settled (c : List HookCmd) (s : ExecState) (hOK : stateOK s.state = true)
    (hS : s.isSettled = true) :
    (runScript c s).1.state = s.state ∧ (runScript c s).1.error = s.error ∧
    (runScript c s).1.result = s.result ∧ (runScript c s).1.hookRuns = s.hookRuns := by
  induction c generalizing s with
  | nil => exact ⟨rfl, rfl, rfl, rfl⟩
  | cons cmd rest ih =>
    have hS' : s.state &&& settledStates ≠ 0 := by
      simpa [ExecState.isSettled] using hS
    obtain ⟨hdo, hex⟩ := settled_bits hOK hS'
    cases cmd with
    | hThrow e => exact ⟨rfl, rfl, rfl, rfl⟩
    | hDone v sw =>
      simp only [runScript, doneFn_not_do hdo]
      by_cases hsw : sw <;> simp only [hsw, if_true, if_false]
      · exact ih s hOK hS
      · exact ⟨rfl, rfl, rfl, rfl⟩
    | hReject r sw =>
      simp only [runScript, rejectHook_settled hex]
      by_cases hsw : sw <;> simp only [hsw, if_true, if_false]
      · exact ih s hOK hS
      · exact ⟨rfl, rfl, rfl, rfl⟩
    | hGetPromise =>
      simp only [runScript]
      have f1 : (promiseGet s).1.state = s.state := by
        rcases hpc : s.promiseControl with _ | pc <;> simp [promiseGet, hpc]
      have f2 : (promiseGet s).1.error = s.error := by
        rcases hpc : s.promiseControl with _ | pc <;> simp [promiseGet, hpc]
      have f3 : (promiseGet s).1.result = s.result := by
        rcases hpc : s.promiseControl with _ | pc <;> simp [promiseGet, hpc]
      have f4 : (promiseGet s).1.hookRuns = s.hookRuns := by
        rcases hpc : s.promiseControl with _ | pc <;> simp [promiseGet, hpc]
      have hOK' : stateOK (promiseGet s).1.state = true := by rw [f1]; exact hOK
      have hS'' : (promiseGet s).1.isSettled = true := by
        simp only [ExecState.isSettled] at hS ⊢
        rw [f1]; exact hS
      obtain ⟨g1, g2, g3, g4⟩ := ih (promiseGet s).1 hOK' hS''
      exact ⟨g1.trans f1, g2.trans f2, g3.trans f3, g4.trans f4⟩

/-- Transfers the invariant across any state change bounded by
`ScriptPres` (in particular across any hook script). -/
theorem inv_of_scriptPres {s t : ExecState} (hp : ScriptPres s t) (hI : Inv s) :
    Inv t ∧ s.state ≤ t.state := by
  obtain ⟨hruns, _hdw, hrest⟩ := hp
  obtain ⟨hOK, hP, c1, c2, c3, c4, k1, k2, k3, k4⟩ := hI
  obtain ⟨hOK', hle, hfin, hPres⟩ := hrest hOK
  refine ⟨⟨hOK', hPres hP, ?_, ?_, ?_, ?_, ?_, ?_, ?_, ?_⟩, hle⟩ <;> rw [hruns]
  · exact c1
  · exact c2
  · exact c3
  · exact c4
  · intro h; exact k1 (lt_of_le_of_lt hle h)
  · intro h; exact k2 (lt_of_le_of_lt hle h)
  · intro h; exact k3 (lt_of_le_of_lt hle h)
  · intro h; exact k4 (by rw [← hfin]; exact h)

/-- Invariant preservation plus state monotonicity, the shape of every
operation-level lemma below. -/
def InvPres (s t : ExecState) : Prop := Inv s → Inv t ∧ s.state ≤ t.state

theorem InvPres.idem (s : ExecState) : InvPres s s := fun hI => ⟨hI, le_refl _⟩

theorem InvPres.compose {s t u : ExecState} (h₁ : InvPres s t) (h₂ : InvPres t u) :
    InvPres s u := fun hI => by
  obtain ⟨hIt, hle₁⟩ := h₁ hI
  obtain ⟨hIu, hle₂⟩ := h₂ hIt
  exact ⟨hIu, hle₁.trans hle₂⟩

theorem promiseOKb_of_not_finished {s : ExecState} (hp : promiseOKb s = true)
    (hf : s.state &&& States.finished = 0) (t : ExecState)
    (hpc : t.promiseControl = s.promiseControl) (hf' : t.state &&& States.finished = 0) :
    promiseOKb t = true := by
  rcases h : s.promiseControl with _ | pc
  · simp [promiseOKb, hpc, h]
  · have hpend := promiseOKb_pending hp h hf
    simp [promiseOKb, hpc, h, ExecState.isFinished, hf', hpend]

theorem count_append_self (l : List Phase) (p : Phase) :
    (l ++ [p]).count p = l.count p + 1 := by
  simp [List.count_append]

theorem count_append_other (l : List Phase) {p q : Phase} (h : p ≠ q) :
    (l ++ [q]).count p = l.count p := by
  simp [List.count_append, List.count_singleton', h]

theorem initPhase_invPres (H : Hooks) (s : ExecState) :
    InvPres s (__executePhaseInit H s).1 := by
  intro hI
  by_cases hlt : s.state < States.init
  · obtain ⟨hOK, hP, c1, c2, c3, c4, k1, k2, k3, k4⟩ := hI
    have h1 : s.state = 1 := by
      rcases stateOK_cases hOK with h|h|h|h|h|h|h|h|h|h <;>
        first | exact h | (rw [h] at hlt; exact absurd hlt (by decide))
    have hc0 : s.hookRuns.count Phase.init = 0 := k1 (by rw [h1]; decide)
    have hIt : Inv { s with state := States.init, hookRuns := s.hookRuns ++ [Phase.init] } := by
      refine ⟨by show stateOK States.init = true; decide, ?_, ?_, ?_, ?_, ?_, ?_, ?_, ?_, ?_⟩
      · exact promiseOKb_of_not_finished hP (by rw [h1]; decide) _ rfl
          (by show States.init &&& States.finished = 0; decide)
      · show (s.hookRuns ++ [Phase.init]).count Phase.init ≤ 1
        rw [count_append_self, hc0]
      · show (s.hookRuns ++ [Phase.init]).count Phase.will ≤ 1
        rw [count_append_other _ (by decide)]; exact c2
      · show (s.hookRuns ++ [Phase.init]).count Phase.doPhase ≤ 1
        rw [count_append_other _ (by decide)]; exact c3
      · show (s.hookRuns ++ [Phase.init]).count Phase.finalPhase ≤ 1
        rw [count_append_other _ (by decide)]; exact c4
      · intro h; exact absurd h (by show ¬States.init < States.init; decide)
      · intro h
        show (s.hookRuns ++ [Phase.init]).count Phase.will = 0
        rw [count_append_other _ (by decide)]; exact k2 (by rw [h1]; decide)
      · intro h
        show (s.hookRuns ++ [Phase.init]).count Phase.doPhase = 0
        rw [count_append_other _ (by decide)]; exact k3 (by rw [h1]; decide)
      · intro h
        show (s.hookRuns ++ [Phase.init]).count Phase.finalPhase = 0
        rw [count_append_other _ (by decide)]; exact k4 (by rw [h1]; decide)
    simp only [__executePhaseInit, if_pos hlt]
    obtain ⟨hInv', hle'⟩ :=
      inv_of_scriptPres (runScript_scriptPres H.onInit _) hIt
    refine ⟨hInv', ?_⟩
    calc s.state ≤ States.init := by rw [h1]; decide
      _ ≤ _ := hle'
  · simp only [__executePhaseInit, if_neg hlt]
    exact ⟨⟨hI.1, hI.2.1, hI.2.2.1, hI.2.2.2.1, hI.2.2.2.2.1, hI.2.2.2.2.2.1,
      hI.2.2.2.2.2.2.1, hI.2.2.2.2.2.2.2.1, hI.2.2.2.2.2.2.2.2.1,
      hI.2.2.2.2.2.2.2.2.2⟩, le_refl _⟩

theorem runScript_invPres (c : List HookCmd) (s : ExecState) : InvPres s (runScript c s).1 :=
  fun hI => inv_of_scriptPres (runScript_scriptPres c s) hI

/-- Reduction: an invalid action makes the will phase reject with the
first validation error, without running the will hook. -/
theorem willPhase_invalid {H : Hooks} {s : ExecState} {e : JSError} {es : List JSError}
    (hv : H.validateErrors = some (e :: es)) (hlt : s.state < States.will) :
    __executePhaseWill H s = (__reject (.error e) { s with state := States.will }, none) := by
  simp only [__executePhaseWill, if_pos hlt, hv]

/-- Reduction: a valid action (`null` validation result) makes the will
phase lock the action and run the will hook. -/
theorem willPhase_valid_none {H : Hooks} {s : ExecState}
    (hv : H.validateErrors = none) (hlt : s.state < States.will) :
    __executePhaseWill H s = runScript H.onWill { s with
      state := States.will, actionFrozen := true,
      hookRuns := s.hookRuns ++ [Phase.will] } := by
  simp only [__executePhaseWill, if_pos hlt, hv]

/-- Reduction: a valid action (empty validation array) makes the will
phase lock the action and run the will hook. -/
theorem willPhase_valid_nil {H : Hooks} {s : ExecState}
    (hv : H.validateErrors = some []) (hlt : s.state < States.will) :
    __executePhaseWill H s = runScript H.onWill { s with
      state := States.will, actionFrozen := true,
      hookRuns := s.hookRuns ++ [Phase.will] } := by
  simp only [__executePhaseWill, if_pos hlt, hv]

theorem willPhase_invPres (H : Hooks) (s : ExecState) :
    InvPres s (__executePhaseWill H s).1 := by
  intro hI
  by_cases hlt : s.state < States.will
  · obtain ⟨hOK, hP, c1, c2, c3, c4, k1, k2, k3, k4⟩ := hI
    have h12 : s.state = 1 ∨ s.state = 2 := by
      rcases stateOK_cases hOK with h|h|h|h|h|h|h|h|h|h <;>
        first
          | exact Or.inl h
          | exact Or.inr h
          | (rw [h] at hlt; exact absurd hlt (by decide))
    have hfin0 : s.state &&& States.finished = 0 := by
      rcases h12 with h|h <;> rw [h] <;> decide
    rcases hv : H.validateErrors with _ | ⟨_ | ⟨e, es⟩⟩
    · -- valid (null): lock and run the will hook
      rw [willPhase_valid_none hv hlt]
      have hc0 : s.hookRuns.count Phase.will = 0 := k2 hlt
      have hIt : Inv { s with
          state := States.will, actionFrozen := true,
          hookRuns := s.hookRuns ++ [Phase.will] } := by
        refine ⟨by show stateOK States.will = true; decide, ?_, ?_, ?_, ?_, ?_, ?_, ?_, ?_, ?_⟩
        · exact promiseOKb_of_not_finished hP hfin0 _ rfl
            (by show States.will &&& States.finished = 0; decide)
        · show (s.hookRuns ++ [Phase.will]).count Phase.init ≤ 1
          rw [count_append_other _ (by decide)]; exact c1
        · show (s.hookRuns ++ [Phase.will]).count Phase.will ≤ 1
          rw [count_append_self, hc0]
        · show (s.hookRuns ++ [Phase.will]).count Phase.doPhase ≤ 1
          rw [count_append_other _ (by decide)]; exact c3
        · show (s.hookRuns ++ [Phase.will]).count Phase.finalPhase ≤ 1
          rw [count_append_other _ (by decide)]; exact c4
        · intro h; exact absurd h (by show ¬States.will < States.init; decide)
        · intro h; exact absurd h (by show ¬States.will < States.will; decide)
        · intro h
          show (s.hookRuns ++ [Phase.will]).count Phase.doPhase = 0
          rw [count_append_other _ (by decide)]
          exact k3 (lt_of_lt_of_le hlt (by rw [States.will, States.do_]; omega))
        · intro h
          show (s.hookRuns ++ [Phase.will]).count Phase.finalPhase = 0
          rw [count_append_other _ (by decide)]; exact k4 hfin0
      obtain ⟨hInv', hle'⟩ := inv_of_scriptPres (runScript_scriptPres H.onWill _) hIt
      refine ⟨hInv', ?_⟩
      calc s.state ≤ States.will := le_of_lt hlt
        _ ≤ _ := hle'
    · -- valid (empty array): lock and run the will hook
      rw [willPhase_valid_nil hv hlt]
      have hc0 : s.hookRuns.count Phase.will = 0 := k2 hlt
      have hIt : Inv { s with
          state := States.will, actionFrozen := true,
          hookRuns := s.hookRuns ++ [Phase.will] } := by
        refine ⟨by show stateOK States.will = true; decide, ?_, ?_, ?_, ?_, ?_, ?_, ?_, ?_, ?_⟩
        · exact promiseOKb_of_not_finished hP hfin0 _ rfl
            (by show States.will &&& States.finished = 0; decide)
        · show (s.hookRuns ++ [Phase.will]).count Phase.init ≤ 1
          rw [count_append_other _ (by decide)]; exact c1
        · show (s.hookRuns ++ [Phase.will]).count Phase.will ≤ 1
          rw [count_append_self, hc0]
        · show (s.hookRuns ++ [Phase.will]).count Phase.doPhase ≤ 1
          rw [count_append_other _ (by decide)]; exact c3
        · show (s.hookRuns ++ [Phase.will]).count Phase.finalPhase ≤ 1
          rw [count_append_other _ (by decide)]; exact c4
        · intro h; exact absurd h (by show ¬States.will < States.init; decide)
        · intro h; exact absurd h (by show ¬States.will < States.will; decide)
        · intro h
          show (s.hookRuns ++ [Phase.will]).count Phase.doPhase = 0
          rw [count_append_other _ (by decide)]
          exact k3 (lt_of_lt_of_le hlt (by rw [States.will, States.do_]; omega))
        · intro h
          show (s.hookRuns ++ [Phase.will]).count Phase.finalPhase = 0
          rw [count_append_other _ (by decide)]; exact k4 hfin0
      obtain ⟨hInv', hle'⟩ := inv_of_scriptPres (runScript_scriptPres H.onWill _) hIt
      refine ⟨hInv', ?_⟩
      calc s.state ≤ States.will := le_of_lt hlt
        _ ≤ _ := hle'
    · -- invalid: reject with the first validation error
      rw [willPhase_invalid hv hlt, __reject_eq]
      constructor
      · refine ⟨?_, ?_, c1, c2, c3, c4, ?_, ?_, ?_, ?_⟩
        · show stateOK (if (classifyReason (.error e)).2 then States.failed
            else States.canceled) = true
          cases (classifyReason (.error e)).2 <;> decide
        · exact promiseOKb_of_not_finished hP hfin0 _ rfl
            (by show (if (classifyReason (.error e)).2 then States.failed
                  else States.canceled) &&& States.finished = 0
                cases (classifyReason (.error e)).2 <;> decide)
        · intro h
          exact absurd h (by
            show ¬(if (classifyReason (.error e)).2 then States.failed
              else States.canceled) < States.init
            cases (classifyReason (.error e)).2 <;> decide)
        · intro h
          exact absurd h (by
            show ¬(if (classifyReason (.error e)).2 then States.failed
              else States.canceled) < States.will
            cases (classifyReason (.error e)).2 <;> decide)
        · intro h
          exact absurd h (by
            show ¬(if (classifyReason (.error e)).2 then States.failed
              else States.canceled) < States.do_
            cases (classifyReason (.error e)).2 <;> decide)
        · intro h; exact k4 hfin0
      · show s.state ≤ (if (classifyReason (.error e)).2 then States.failed
          else States.canceled)
        rcases h12 with h|h <;> rw [h] <;> cases (classifyReason (.error e)).2 <;> decide
  · simp only [__executePhaseWill, if_neg hlt]
    exact ⟨hI, le_refl _⟩

theorem doDefaultAsync_settled {H : Hooks} {s : ExecState} (h : s.isSettled = true) :
    __executePhaseDoDefaultAsync H s = (s, none) := by
  simp [__executePhaseDoDefaultAsync, h]

theorem doDefaultAsync_unsettled {H : Hooks} {s : ExecState} (h : s.isSettled = false) :
    __executePhaseDoDefaultAsync H s = runScript H.doDefault s := by
  simp [__executePhaseDoDefaultAsync, h]

theorem doDefaultAsync_invPres (H : Hooks) (s : ExecState) :
    InvPres s (__executePhaseDoDefaultAsync H s).1 := by
  rcases hset : s.isSettled with _ | _
  · rw [doDefaultAsync_unsettled hset]
    exact runScript_invPres H.doDefault s
  · rw [doDefaultAsync_settled hset]
    exact InvPres.idem s

theorem doPhase_invPres (H : Hooks) (s : ExecState) :
    InvPres s (__executePhaseDo H s).1 := by
  intro hI
  by_cases hlt : s.state < States.do_
  · obtain ⟨hOK, hP, c1, c2, c3, c4, k1, k2, k3, k4⟩ := hI
    have h124 : s.state = 1 ∨ s.state = 2 ∨ s.state = 4 := by
      rcases stateOK_cases hOK with h|h|h|h|h|h|h|h|h|h <;>
        first
          | exact Or.inl h
          | exact Or.inr (Or.inl h)
          | exact Or.inr (Or.inr h)
          | (rw [h] at hlt; exact absurd hlt (by decide))
    have hfin0 : s.state &&& States.finished = 0 := by
      rcases h124 with h|h|h <;> rw [h] <;> decide
    have hc0 : s.hookRuns.count Phase.doPhase = 0 := k3 hlt
    have hIt : Inv { s with state := States.do_, hookRuns := s.hookRuns ++ [Phase.doPhase] } := by
      refine ⟨by show stateOK States.do_ = true; decide, ?_, ?_, ?_, ?_, ?_, ?_, ?_, ?_, ?_⟩
      · exact promiseOKb_of_not_finished hP hfin0 _ rfl
          (by show States.do_ &&& States.finished = 0; decide)
      · show (s.hookRuns ++ [Phase.doPhase]).count Phase.init ≤ 1
        rw [count_append_other _ (by decide)]; exact c1
      · show (s.hookRuns ++ [Phase.doPhase]).count Phase.will ≤ 1
        rw [count_append_other _ (by decide)]; exact c2
      · show (s.hookRuns ++ [Phase.doPhase]).count Phase.doPhase ≤ 1
        rw [count_append_self, hc0]
      · show (s.hookRuns ++ [Phase.doPhase]).count Phase.finalPhase ≤ 1
        rw [count_append_other _ (by decide)]; exact c4
      · intro h; exact absurd h (by show ¬States.do_ < States.init; decide)
      · intro h; exact absurd h (by show ¬States.do_ < States.will; decide)
      · intro h; exact absurd h (by show ¬States.do_ < States.do_; decide)
      · intro h
        show (s.hookRuns ++ [Phase.doPhase]).count Phase.finalPhase = 0
        rw [count_append_other _ (by decide)]; exact k4 hfin0
    have hle0 : s.state ≤ States.do_ := le_of_lt hlt
    rcases hrs : runScript H.onDo
        { s with state := States.do_, hookRuns := s.hookRuns ++ [Phase.doPhase] } with ⟨u, th⟩
    have hPres := runScript_scriptPres H.onDo
      { s with state := States.do_, hookRuns := s.hookRuns ++ [Phase.doPhase] }
    rw [hrs] at hPres
    obtain ⟨hIu, hleu⟩ := inv_of_scriptPres hPres hIt
    have hleu' : s.state ≤ u.state := le_trans hle0 hleu
    cases th with
    | some e =>
      simp only [__executePhaseDo, if_pos hlt, hrs]
      exact ⟨hIu, hleu'⟩
    | none =>
      simp only [__executePhaseDo, if_pos hlt, hrs]
      rcases hsync : H.isSync with _ | _
      · -- asynchronous
        rw [if_neg (by decide : ¬(false = true))]
        by_cases hcond : (!H.onDoReturnsPromise || u.isSettled) = true
        · rw [if_pos hcond]
          obtain ⟨hIv, hlev⟩ := doDefaultAsync_invPres H u hIu
          exact ⟨hIv, le_trans hleu' hlev⟩
        · rw [if_neg hcond]
          exact ⟨hIu, hleu'⟩
      · -- synchronous
        rw [if_pos (by decide : true = true)]
        by_cases hset : (!u.isSettled) = true
        · rw [if_pos hset]
          obtain ⟨hIv, hlev⟩ := runScript_invPres H.doDefault u hIu
          exact ⟨hIv, le_trans hleu' hlev⟩
        · rw [if_neg hset]
          exact ⟨hIu, hleu'⟩
  · simp only [__executePhaseDo, if_neg hlt]
    exact ⟨hI, le_refl _⟩

/-- Characterizes `__executePhaseFinallyCore` on a settled, not yet
finished state: whatever the finally hook does, the state gains exactly
the `finished` bit, the recorded error and result are unchanged, the
finally hook is recorded once, and the promise control (if any) ends up
settled consistently. -/
theorem finallyCore_char (H : Hooks) (d : ExecState)
    (hOK : stateOK d.state = true) (hset : d.isSettled = true)
    (hfin0 : d.state &&& States.finished = 0) :
    (__executePhaseFinallyCore H d).state = d.state ||| States.finished ∧
    (__executePhaseFinallyCore H d).error = d.error ∧
    (__executePhaseFinallyCore H d).result = d.result ∧
    (__executePhaseFinallyCore H d).hookRuns = d.hookRuns ++ [Phase.finalPhase] ∧
    (promiseOKb d = true → promiseOKb (__executePhaseFinallyCore H d) = true) := by
  have hOK1 : stateOK ({ d with
      hookRuns := d.hookRuns ++ [Phase.finalPhase] } : ExecState).state = true := hOK
  have hset1 : ({ d with
      hookRuns := d.hookRuns ++ [Phase.finalPhase] } : ExecState).isSettled = true := hset
  have hsettled' : d.state &&& settledStates ≠ 0 := by
    simpa [ExecState.isSettled] using hset
  have h3 : d.state = 16 ∨ d.state = 32 ∨ d.state = 64 := by
    rcases stateOK_cases hOK with h|h|h|h|h|h|h|h|h|h <;>
      first
        | exact Or.inl h
        | exact Or.inr (Or.inl h)
        | exact Or.inr (Or.inr h)
        | (rw [h] at hsettled'; exact absurd (by decide) hsettled')
        | (rw [h] at hfin0; exact absurd hfin0 (by decide))
  obtain ⟨f1, f2, f3, f4⟩ := runScript_settled H.onFinally _ hOK1 hset1
  have hPres := runScript_scriptPres H.onFinally
    ({ d with hookRuns := d.hookRuns ++ [Phase.finalPhase] } : ExecState)
  rcases hrs : runScript H.onFinally
      ({ d with hookRuns := d.hookRuns ++ [Phase.finalPhase] } : ExecState) with ⟨u, th⟩
  rw [hrs] at f1 f2 f3 f4 hPres
  have g1 : u.state = d.state := f1
  have g2 : u.error = d.error := f2
  have g3 : u.result = d.result := f3
  have g4 : u.hookRuns = d.hookRuns ++ [Phase.finalPhase] := f4
  have hsettle :
      ∀ v : ExecState, v.state = d.state → v.error = d.error → v.result = d.result →
        v.hookRuns = d.hookRuns ++ [Phase.finalPhase] → v.promiseControl = u.promiseControl →
      (__executePhaseFinallyCore H d =
        (match ({ v with state := v.state ||| States.finished } : ExecState).promiseControl with
          | none => ({ v with state := v.state ||| States.finished } : ExecState)
          | some pc =>
            if ({ v with state := v.state ||| States.finished } : ExecState).isDone then
              { v with
                state := v.state ||| States.finished,
                promiseControl := some (pc.resolveWith v.result) }
            else
              { v with
                state := v.state ||| States.finished,
                promiseControl := some (pc.rejectWith v.error) })) →
      (__executePhaseFinallyCore H d).state = d.state ||| States.finished ∧
      (__executePhaseFinallyCore H d).error = d.error ∧
      (__executePhaseFinallyCore H d).result = d.result ∧
      (__executePhaseFinallyCore H d).hookRuns = d.hookRuns ++ [Phase.finalPhase] ∧
      (promiseOKb d = true → promiseOKb (__executePhaseFinallyCore H d) = true) := by
    intro v hv1 hv2 hv3 hv4 hv5 heq
    rcases hpc : v.promiseControl with _ | pc
    · rw [heq]
      simp only [hpc]
      refine ⟨by rw [hv1], hv2, hv3, hv4, fun _ => ?_⟩
      simp [promiseOKb, hpc]
    · have hpend : promiseOKb d = true → pc.st = .pending := by
        intro hP
        have hPt1 : promiseOKb ({ d with
            hookRuns := d.hookRuns ++ [Phase.finalPhase] } : ExecState) = true := hP
        have hPu : promiseOKb u = true := (hPres.2.2 hOK1).2.2.2 hPt1
        have hpcu : u.promiseControl = some pc := by rw [← hv5, hpc]
        exact promiseOKb_pending hPu hpcu (by rw [g1]; exact hfin0)
      rw [heq]
      simp only [hpc]
      split_ifs with hdid
      · refine ⟨by rw [hv1], hv2, hv3, hv4, fun hP => ?_⟩
        have hp := hpend hP
        simp only [ExecState.isDone] at hdid
        simp [promiseOKb, ExecState.isFinished, promiseExpected, ExecState.isDone,
          PromiseControl.resolveWith, hp, States.finished]
        rw [hv1] at hdid ⊢
        rcases h3 with h|h|h <;> rw [h] at hdid ⊢
        · exact ⟨by decide, by rw [if_neg (by decide)]⟩
        · exact absurd hdid (by decide)
        · exact absurd hdid (by decide)
      · refine ⟨by rw [hv1], hv2, hv3, hv4, fun hP => ?_⟩
        have hp := hpend hP
        simp only [ExecState.isDone] at hdid
        simp [promiseOKb, ExecState.isFinished, promiseExpected, ExecState.isDone,
          PromiseControl.rejectWith, hp, States.finished]
        rw [hv1] at hdid ⊢
        rcases h3 with h|h|h <;> rw [h] at hdid ⊢
        · exact absurd (by decide) hdid
        · exact ⟨by decide, by rw [if_pos (by decide)]⟩
        · exact ⟨by decide, by rw [if_pos (by decide)]⟩
  cases th with
  | none =>
    exact hsettle u g1 g2 g3 g4 rfl (by simp only [__executePhaseFinallyCore, hrs])
  | some ex =>
    by_cases hdw : u.debugWarn = true
    · exact hsettle { u with log := u.log ++ [warnFinallyMsg ex] } g1 g2 g3 g4 rfl
        (by simp only [__executePhaseFinallyCore, hrs, hdw, if_true])
    · have hdw' : u.debugWarn = false := by revert hdw; cases u.debugWarn <;> simp
      exact hsettle u g1 g2 g3 g4 rfl
        (by simp only [__executePhaseFinallyCore, hrs, hdw', Bool.false_eq_true, if_false])

theorem settled_unfinished_cases {n : Nat} (hOK : stateOK n = true)
    (hS : n &&& settledStates ≠ 0) (hf : n &&& States.finished = 0) :
    n = 16 ∨ n = 32 ∨ n = 64 := by
  rcases stateOK_cases hOK with h|h|h|h|h|h|h|h|h|h <;>
    first
      | exact Or.inl h
      | exact Or.inr (Or.inl h)
      | exact Or.inr (Or.inr h)
      | (rw [h] at hS; exact absurd (by decide) hS)
      | (rw [h] at hf; exact absurd hf (by decide))

theorem unsettled_cases {n : Nat} (hOK : stateOK n = true)
    (hS : n &&& settledStates = 0) :
    n = 1 ∨ n = 2 ∨ n = 4 ∨ n = 8 := by
  rcases stateOK_cases hOK with h|h|h|h|h|h|h|h|h|h <;>
    first
      | exact Or.inl h
      | exact Or.inr (Or.inl h)
      | exact Or.inr (Or.inr (Or.inl h))
      | exact Or.inr (Or.inr (Or.inr h))
      | (rw [h] at hS; exact absurd hS (by decide))

/-- `__executePhaseFinallyCore` preserves the invariant on a settled,
unfinished state, and only advances the state flag. -/
theorem finallyCore_inv (H : Hooks) (d : ExecState) (hId : Inv d)
    (hset : d.isSettled = true) (hfin0 : d.state &&& States.finished = 0) :
    Inv (__executePhaseFinallyCore H d) ∧ d.state ≤ (__executePhaseFinallyCore H d).state := by
  obtain ⟨hOK, hP, c1, c2, c3, c4, k1, k2, k3, k4⟩ := hId
  obtain ⟨e1, e2, e3, e4, e5⟩ := finallyCore_char H d hOK hset hfin0
  have h3 : d.state = 16 ∨ d.state = 32 ∨ d.state = 64 :=
    settled_unfinished_cases hOK (by simpa [ExecState.isSettled] using hset) hfin0
  have hcf : d.hookRuns.count Phase.finalPhase = 0 := k4 hfin0
  refine ⟨⟨?_, e5 hP, ?_, ?_, ?_, ?_, ?_, ?_, ?_, ?_⟩, ?_⟩
  · rw [e1]; rcases h3 with h|h|h <;> rw [h] <;> decide
  · rw [e4, count_append_other _ (by decide)]; exact c1
  · rw [e4, count_append_other _ (by decide)]; exact c2
  · rw [e4, count_append_other _ (by decide)]; exact c3
  · rw [e4, count_append_self, hcf]
  · intro h; rw [e1] at h
    rcases h3 with hh|hh|hh <;> rw [hh] at h <;> exact absurd h (by decide)
  · intro h; rw [e1] at h
    rcases h3 with hh|hh|hh <;> rw [hh] at h <;> exact absurd h (by decide)
  · intro h; rw [e1] at h
    rcases h3 with hh|hh|hh <;> rw [hh] at h <;> exact absurd h (by decide)
  · intro h; rw [e1] at h
    rcases h3 with hh|hh|hh <;> rw [hh] at h <;> exact absurd h (by decide)
  · rw [e1]; rcases h3 with h|h|h <;> rw [h] <;> decide

theorem rejectOrLog_unsettled {r : JSValue} {s : ExecState} (h : s.isSettled = false) :
    __rejectOrLog r s = __reject r s := by
  simp [__rejectOrLog, h]

theorem rejectOrLog_invPres (r : JSValue) (s : ExecState) : InvPres s (__rejectOrLog r s) := by
  intro hI
  rcases hset : s.isSettled with _ | _
  · rw [rejectOrLog_unsettled hset]
    have hS0 : s.state &&& settledStates = 0 := by
      simpa [ExecState.isSettled] using hset
    have hex : ¬s.state &&& executingUnsettledStates = 0 := by
      rcases unsettled_cases hI.1 hS0 with h|h|h|h <;> rw [h] <;> decide
    have hpres := rejectHook_scriptPres r s
    rw [rejectHook_unsettled hex] at hpres
    exact inv_of_scriptPres hpres hI
  · have : __rejectOrLog r s = s ∨
        __rejectOrLog r s = { s with log := s.log ++ [warnAfterSettledMsg r] } := by
      simp only [__rejectOrLog, hset, Bool.not_true, Bool.false_eq_true, if_false]
      split_ifs <;> simp
    rcases this with h | h <;> rw [h]
    · exact ⟨hI, le_refl _⟩
    · exact ⟨hI, le_refl _⟩

theorem finallyPhase_invPres (H : Hooks) (s : ExecState) :
    InvPres s (__executePhaseFinally H s).1 := by
  intro hI
  by_cases hlt : s.state < States.finished
  · rcases hset : s.isSettled with _ | _
    · -- unsettled: auto-done first
      have hS0 : s.state &&& settledStates = 0 := by
        simpa [ExecState.isSettled] using hset
      by_cases hdo : s.state &&& States.do_ = 0
      · -- done throws, finally aborts with the error, state unchanged
        simp only [__executePhaseFinally, if_pos hlt, hset, Bool.not_false, if_true,
          doneFn_not_do hdo]
        exact ⟨hI, le_refl _⟩
      · -- state = do: auto-fulfil then run the core
        have h8 : s.state = 8 := by
          rcases unsettled_cases hI.1 hS0 with h|h|h|h <;> rw [h] at hdo ⊢ <;>
            first | rfl | exact absurd (by decide) hdo
        have hpres := doneFn_scriptPres JSValue.undef s
        rw [doneFn_do hdo] at hpres
        obtain ⟨hId, hled⟩ := inv_of_scriptPres hpres hI
        have hsetd : ({ s with result := JSValue.undef, state := States.did } :
            ExecState).isSettled = true := by
          show (States.did &&& settledStates != 0) = true; decide
        have hfind : ({ s with result := JSValue.undef, state := States.did } :
            ExecState).state &&& States.finished = 0 := by
          show States.did &&& States.finished = 0; decide
        obtain ⟨hIw, hlew⟩ := finallyCore_inv H _ hId hsetd hfind
        simp only [__executePhaseFinally, if_pos hlt, hset, Bool.not_false, if_true,
          doneFn_do hdo]
        exact ⟨hIw, le_trans hled hlew⟩
    · -- settled: run the core directly
      have hfin0 : s.state &&& States.finished = 0 := by
        rcases settled_unfinished_cases hI.1
            (by simpa [ExecState.isSettled] using hset)
            (by
              by_contra hf
              rcases stateOK_cases hI.1 with h|h|h|h|h|h|h|h|h|h <;> rw [h] at hf hlt <;>
                first
                  | exact hf (by decide)
                  | exact absurd hlt (by decide)) with h|h|h <;> rw [h] <;> decide
      obtain ⟨hIw, hlew⟩ := finallyCore_inv H s hI hset hfin0
      simp only [__executePhaseFinally, if_pos hlt, hset, Bool.not_true, Bool.false_eq_true,
        if_false]
      exact ⟨hIw, hlew⟩
  · simp only [__executePhaseFinally, if_neg hlt]
    exact ⟨hI, le_refl _⟩

theorem chainIWD_invPres (H : Hooks) (s : ExecState) :
    InvPres s (__executePhasesInitWillDo H s) := by
  intro hI
  rcases h1 : __executePhaseInit H s with ⟨a, th1⟩
  have p1 := initPhase_invPres H s
  rw [h1] at p1
  obtain ⟨hIa, hla⟩ := p1 hI
  cases th1 with
  | some e =>
    simp only [__executePhasesInitWillDo, h1]
    obtain ⟨hIb, hlb⟩ := rejectOrLog_invPres (.error e) a hIa
    exact ⟨hIb, hla.trans hlb⟩
  | none =>
    rcases h2 : __executePhaseWill H a with ⟨b, th2⟩
    have p2 := willPhase_invPres H a
    rw [h2] at p2
    obtain ⟨hIb, hlb⟩ := p2 hIa
    cases th2 with
    | some e =>
      simp only [__executePhasesInitWillDo, h1, h2]
      obtain ⟨hIc, hlc⟩ := rejectOrLog_invPres (.error e) b hIb
      exact ⟨hIc, (hla.trans hlb).trans hlc⟩
    | none =>
      rcases h3 : __executePhaseDo H b with ⟨c, th3⟩
      have p3 := doPhase_invPres H b
      rw [h3] at p3
      obtain ⟨hIc, hlc⟩ := p3 hIb
      cases th3 with
      | some e =>
        simp only [__executePhasesInitWillDo, h1, h2, h3]
        obtain ⟨hId, hld⟩ := rejectOrLog_invPres (.error e) c hIc
        exact ⟨hId, ((hla.trans hlb).trans hlc).trans hld⟩
      | none =>
        simp only [__executePhasesInitWillDo, h1, h2, h3]
        exact ⟨hIc, (hla.trans hlb).trans hlc⟩

theorem chainIW_invPres (H : Hooks) (s : ExecState) :
    InvPres s (__executePhasesInitWill H s) := by
  intro hI
  rcases h1 : __executePhaseInit H s with ⟨a, th1⟩
  have p1 := initPhase_invPres H s
  rw [h1] at p1
  obtain ⟨hIa, hla⟩ := p1 hI
  cases th1 with
  | some e =>
    simp only [__executePhasesInitWill, h1]
    obtain ⟨hIb, hlb⟩ := rejectOrLog_invPres (.error e) a hIa
    exact ⟨hIb, hla.trans hlb⟩
  | none =>
    rcases h2 : __executePhaseWill H a with ⟨b, th2⟩
    have p2 := willPhase_invPres H a
    rw [h2] at p2
    obtain ⟨hIb, hlb⟩ := p2 hIa
    cases th2 with
    | some e =>
      simp only [__executePhasesInitWill, h1, h2]
      obtain ⟨hIc, hlc⟩ := rejectOrLog_invPres (.error e) b hIb
      exact ⟨hIc, (hla.trans hlb).trans hlc⟩
    | none =>
      simp only [__executePhasesInitWill, h1, h2]
      exact ⟨hIb, hla.trans hlb⟩

theorem syncAction_invPres (H : Hooks) (s : ExecState) :
    InvPres s (__executeSyncAction H s).1 :=
  (chainIWD_invPres H s).compose (finallyPhase_invPres H _)

theorem asyncAction_invPres (H : Hooks) (s : ExecState) :
    InvPres s (__executeAsyncAction H s).1 :=
  chainIWD_invPres H s

theorem callInside_invPres (f : ExecState → ExecState × Option JSError)
    (hf : ∀ t, InvPres t (f t).1) (s : ExecState) :
    InvPres s (__callInside f s).1 := by
  intro hI
  rcases hin : s.isInside with _ | _
  · simp only [__callInside, hin, Bool.false_eq_true, if_false]
    rcases hfr : f { s with isInside := true } with ⟨s', th⟩
    have hp := hf { s with isInside := true }
    rw [hfr] at hp
    obtain ⟨hI', hle'⟩ := hp hI
    cases th with
    | none => exact ⟨hI', hle'⟩
    | some e => exact ⟨hI', hle'⟩
  · simp only [__callInside, hin, if_true]
    exact ⟨hI, le_refl _⟩

theorem execute_invPres (H : Hooks) (s : ExecState) : InvPres s (execute H s).1 := by
  intro hI
  by_cases hgt : States.will < s.state
  · simp only [execute, if_pos hgt]
    exact ⟨hI, le_refl _⟩
  · simp only [execute, if_neg hgt]
    refine callInside_invPres _ (fun t => ?_) s hI
    rcases hsync : H.isSync with _ | _
    · simp only [hsync, Bool.false_eq_true, if_false]
      exact asyncAction_invPres H t
    · simp only [hsync, if_true]
      exact syncAction_invPres H t

theorem executeWill_invPres (H : Hooks) (s : ExecState) : InvPres s (executeWill H s).1 := by
  intro hI
  by_cases hgt : States.will < s.state
  · simp only [executeWill, if_pos hgt]
    exact ⟨hI, le_refl _⟩
  · simp only [executeWill, if_neg hgt]
    refine callInside_invPres _ (fun t => ?_) s hI
    exact chainIW_invPres H t

theorem reject_invPres (H : Hooks) (r : JSValue) (s : ExecState) :
    InvPres s (reject H r s).1 := by
  intro hI
  by_cases hex : s.state &&& executingUnsettledStates = 0
  · simp only [reject, ExecState.assertStates, hex, if_pos]
    exact ⟨hI, le_refl _⟩
  · have hpres := rejectHook_scriptPres r s
    rw [rejectHook_unsettled hex] at hpres
    obtain ⟨hIr, hlr⟩ := inv_of_scriptPres hpres hI
    rcases hwe : s.isExecuting with _ | _
    · simp only [reject, ExecState.assertStates, if_neg hex, hwe, Bool.not_false, if_true]
      obtain ⟨hIf, hlf⟩ := finallyPhase_invPres H (__reject r s) hIr
      exact ⟨hIf, hlr.trans hlf⟩
    · simp only [reject, ExecState.assertStates, if_neg hex, hwe, Bool.not_true,
        Bool.false_eq_true, if_false]
      exact ⟨hIr, hlr⟩

theorem asyncDoDefaultCont_invPres (H : Hooks) (s : ExecState) :
    InvPres s (asyncDoDefaultCont H s) := by
  intro hI
  rcases h1 : __executePhaseDoDefaultAsync H s with ⟨a, th⟩
  have p1 := doDefaultAsync_invPres H s
  rw [h1] at p1
  obtain ⟨hIa, hla⟩ := p1 hI
  cases th with
  | none =>
    simp only [asyncDoDefaultCont, h1]
    exact ⟨hIa, hla⟩
  | some e =>
    simp only [asyncDoDefaultCont, h1]
    obtain ⟨hIb, hlb⟩ := rejectOrLog_invPres (.error e) a hIa
    exact ⟨hIb, hla.trans hlb⟩

theorem asyncFinallyCont_invPres (H : Hooks) (s : ExecState) :
    InvPres s (asyncFinallyCont H s).1 :=
  callInside_invPres _ (fun t => finallyPhase_invPres H t) s

/-- Every operation preserves the invariant and never decreases the
state flag. -/
theorem step_inv {s s' : ExecState} (h : Step s s') (hI : Inv s) :
    Inv s' ∧ s.state ≤ s'.state := by
  cases h with
  | executeStep H s => exact execute_invPres H s hI
  | executeWillStep H s => exact executeWill_invPres H s hI
  | rejectStep H r s => exact reject_invPres H r s hI
  | doneStep v s => exact inv_of_scriptPres (doneFn_scriptPres v s) hI
  | promiseStep s => exact inv_of_scriptPres (promiseGet_scriptPres s) hI
  | rejectOrLogStep r s hg => exact rejectOrLog_invPres r s hI
  | asyncDoDefaultStep H s hg => exact asyncDoDefaultCont_invPres H s hI
  | asyncFinallyStep H s hg => exact asyncFinallyCont_invPres H s hI

/-- Every reachable state satisfies the invariant. -/
theorem reachable_inv {dw : Bool} {s : ExecState} (h : Reachable dw s) : Inv s := by
  induction h with
  | refl => exact inv_execInit dw
  | tail hsteps hstep ih => exact (step_inv hstep ih).1

/-- While the do phase has not been entered, a hook script either leaves
the state flag unchanged or settles the execution as canceled or failed
(it cannot advance phases or mark the execution done). -/
theorem runScript_state_not_do (c : List HookCmd) (s : ExecState)
    (hdo : s.state &&& States.do_ = 0) :
    (runScript c s).1.state = s.state ∨
    (runScript c s).1.state = States.canceled ∨
    (runScript c s).1.state = States.failed := by
  induction c generalizing s with
  | nil => exact Or.inl rfl
  | cons cmd rest ih =>
    cases cmd with
    | hThrow e => exact Or.inl rfl
    | hDone v sw =>
      simp only [runScript, doneFn_not_do hdo]
      by_cases hsw : sw <;> simp only [hsw, if_true, if_false]
      · exact ih s hdo
      · exact Or.inl rfl
    | hReject r sw =>
      by_cases hex : s.state &&& executingUnsettledStates = 0
      · simp only [runScript, rejectHook_settled hex]
        by_cases hsw : sw <;> simp only [hsw, if_true, if_false]
        · exact ih s hdo
        · exact Or.inl rfl
      · simp only [runScript, rejectHook_unsettled hex, __reject_eq]
        rcases hcv : (classifyReason r).2 with _ | _
        · simp only [hcv, Bool.false_eq_true, if_false]
          rcases ih { s with
              state := States.canceled
              error := some (classifyReason r).1
              result := .undef }
              (by show States.canceled &&& States.do_ = 0; decide) with h | h | h
          · rw [h]; right; left; rfl
          · exact Or.inr (Or.inl h)
          · exact Or.inr (Or.inr h)
        · simp only [hcv, eq_self_iff_true, if_true]
          rcases ih { s with
              state := States.failed
              error := some (classifyReason r).1
              result := .undef }
              (by show States.failed &&& States.do_ = 0; decide) with h | h | h
          · rw [h]; right; right; rfl
          · exact Or.inr (Or.inl h)
          · exact Or.inr (Or.inr h)
    | hGetPromise =>
      simp only [runScript]
      have hst : (promiseGet s).1.state = s.state := by
        rcases hpc : s.promiseControl with _ | pc <;> simp [promiseGet, hpc]
      have := ih (promiseGet s).1 (by rw [hst]; exact hdo)
      rw [hst] at this
      exact this

/-- A hook script never replaces an existing promise control object. -/
theorem runScript_promiseControl_some (c : List HookCmd) (s : ExecState) (pc : PromiseControl)
    (h : s.promiseControl = some pc) : (runScript c s).1.promiseControl = some pc := by
  induction c generalizing s with
  | nil => exact h
  | cons cmd rest ih =>
    cases cmd with
    | hThrow e => exact h
    | hDone v sw =>
      by_cases hdo : s.state &&& States.do_ = 0
      · simp only [runScript, doneFn_not_do hdo]
        by_cases hsw : sw <;> simp only [hsw, if_true, if_false]
        · exact ih s h
        · exact h
      · simp only [runScript, doneFn_do hdo]
        exact ih _ h
    | hReject r sw =>
      by_cases hex : s.state &&& executingUnsettledStates = 0
      · simp only [runScript, rejectHook_settled hex]
        by_cases hsw : sw <;> simp only [hsw, if_true, if_false]
        · exact ih s h
        · exact h
      · simp only [runScript, rejectHook_unsettled hex, __reject_eq]
        exact ih _ h
    | hGetPromise =>
      simp only [runScript, promiseGet, h]
      exact ih _ h

/-- Justifies the hook-script model of `reject`: on any well-formed
state that is not unstarted — and hooks only ever run once the state has
reached `init` — the public `reject` coincides with `rejectHook`
(assert + `__reject`), because its run-the-finally-phase branch is taken
only when the execution was unstarted. -/
theorem reject_eq_rejectHook_of_started (H : Hooks) (r : JSValue) (s : ExecState)
    (hOK : stateOK s.state = true) (h : s.state ≠ States.unstarted) :
    reject H r s = rejectHook r s := by
  rcases stateOK_cases hOK with hs|hs|hs|hs|hs|hs|hs|hs|hs|hs
  · exact absurd hs h
  all_goals (
    by_cases hex : s.state &&& executingUnsettledStates = 0
    · simp only [reject, rejectHook, ExecState.assertStates, if_pos hex]
    · first
        | exact absurd (by rw [hs]; decide) hex
        | (have hwe : s.isExecuting = true := by
            simp only [ExecState.isExecuting, ExecState.isUnstarted, ExecState.isFinished, hs]
            decide
           simp only [reject, rejectHook, ExecState.assertStates, if_neg hex, hwe,
            Bool.not_true, Bool.false_eq_true, if_false]))

/-! ## Claims -/

/-- The reject-reason classification as the amended claim C2 states it:
a falsy reason (`undefined`, `null`, the empty string, the number zero,
or `false`) is replaced by a user-facing error with the fixed message
"Canceled" and classified as canceled; a (non-empty) string becomes a
user-facing cancellation; an `Error` that is a `UserError` and not a
`RuntimeError` yields canceled; any other `Error` yields failed; and any
truthy value that is neither a string nor an `Error` is replaced with an
internal invalid-argument error and yields failed. -/
def classifySpec (r : JSValue) : JSError × Bool :=
  if jsTruthy r = false then (JSError.userError "Canceled", false)
  else
    match r with
    | .str s => (JSError.userError s, false)
    | .error e =>
      if e.isUserError && !e.isRuntimeError then (e, false) else (e, true)
    | v => (JSError.argumentInvalidTypeError "reason" ["string", "Error"] (jsTypeof v), true)

/-- C2 (counterexample): the boolean `false` is a value that is neither a
string nor an `Error`, yet the classification does not replace it with
the internal invalid-argument error and does not classify it as failed —
being falsy, it is replaced by the user-facing "Canceled" error and the
execution becomes canceled. -/
theorem C2_counterexample :
    classifyReason (JSValue.boolean false) = (JSError.userError "Canceled", false) ∧
    ¬(classifyReason (JSValue.boolean false) =
        (JSError.argumentInvalidTypeError "reason" ["string", "Error"]
          (jsTypeof (JSValue.boolean false)), true)) ∧
    (__reject (JSValue.boolean false) (execInit true)).state = States.canceled := by
  refine ⟨rfl, ?_, rfl⟩
  decide

/-- C2 (amended): the reject-reason classification is a total,
deterministic function of the reason's shape: falsy reasons (undefined,
null, empty string, zero, false) are replaced by the fixed user-facing
"Canceled" error and become canceled; a string becomes a user-facing
cancellation (canceled); a `UserError` that is not a `RuntimeError`
yields canceled; any other `Error` (including `RuntimeError`) yields
failed; and any truthy value that is neither a string nor an `Error` is
replaced with an internal invalid-argument error and yields failed.
`__reject` applies exactly this classification to decide the outcome. -/
theorem C2_amended_classification :
    (∀ r : JSValue, classifyReason r = classifySpec r) ∧
    (∀ (r : JSValue) (s : ExecState),
      (__reject r s).state =
        (if (classifyReason r).2 then States.failed else States.canceled) ∧
      (__reject r s).error = some (classifyReason r).1 ∧
      (__reject r s).result = JSValue.undef) := by
  constructor
  · intro r
    cases r with
    | undef => rfl
    | null => rfl
    | str s =>
      by_cases h : s = "" <;>
        simp [classifyReason, classifySpec, jsTruthy, h]
    | num n =>
      by_cases h : n = 0 <;>
        simp [classifyReason, classifySpec, jsTruthy, h]
    | boolean b => cases b <;> rfl
    | error e => cases e <;> rfl
    | obj => rfl
  · intro r s
    rw [__reject_eq]
    exact ⟨rfl, rfl, rfl⟩

/-- C8: calling `done(result)` on an execution whose state is not the
`do` state throws the usage error `MSG_STATE_DONE` and leaves the whole
execution state unchanged (the returned state is the input state, so
`state`, `result` and `error` are all untouched). -/
theorem C8_done_outside_do (dw : Bool) (s : ExecState) (v : JSValue)
    (hreach : Reachable dw s) (hnot : s.state ≠ States.do_) :
    doneFn v s = (s, some (JSError.operationInvalidError MSG_STATE_DONE)) := by
  have hOK := (reachable_inv hreach).1
  have hdo : s.state &&& States.do_ = 0 := by
    rcases stateOK_cases hOK with h|h|h|h|h|h|h|h|h|h <;>
      first
        | (rw [h]; decide)
        | exact absurd h hnot
  exact doneFn_not_do hdo

theorem C8_witness :
    doneFn (JSValue.num 1) (execInit true) =
      (execInit true, some (JSError.operationInvalidError MSG_STATE_DONE)) :=
  C8_done_outside_do true (execInit true) (JSValue.num 1) Relation.ReflTransGen.refl
    (by decide)

theorem sameErrorRef_truthy {err : Option JSError} {r : JSValue}
    (h : sameErrorRef err r = true) : jsTruthy r = true := by
  cases err <;> cases r <;> simp [sameErrorRef, jsTruthy] at h ⊢

/-- C6: once an execution has settled, a second rejection attempt leaves
the recorded outcome, error and result unchanged: `__rejectOrLog` keeps
all of them, is silent when the reason is the identical recorded error,
and only logs the reason when it differs; the public `reject` throws a
usage error, also leaving the state unchanged.  The second reason is
never applied. -/
theorem C6_post_settlement_second_rejection (dw : Bool) (s : ExecState) (r : JSValue)
    (hreach : Reachable dw s) (hset : s.isSettled = true) :
    (__rejectOrLog r s).state = s.state ∧
    (__rejectOrLog r s).error = s.error ∧
    (__rejectOrLog r s).result = s.result ∧
    (sameErrorRef s.error r = true → __rejectOrLog r s = s) ∧
    (sameErrorRef s.error r = false → s.debugWarn = true →
      (__rejectOrLog r s).log = s.log ++ [warnAfterSettledMsg r]) ∧
    (∀ H : Hooks, reject H r s = (s, some (JSError.operationInvalidError MSG_STATE_REJECT))) := by
  have hOK := (reachable_inv hreach).1
  have hset' : s.state &&& settledStates ≠ 0 := by
    simpa [ExecState.isSettled] using hset
  have hex0 : s.state &&& executingUnsettledStates = 0 := (settled_bits hOK hset').2
  have hbase : ∀ t : ExecState, t = __rejectOrLog r s →
      (t = s ∨ t = { s with log := s.log ++ [warnAfterSettledMsg r] }) := by
    intro t ht
    rw [ht]
    simp only [__rejectOrLog, hset, Bool.not_true, Bool.false_eq_true, if_false]
    split_ifs <;> simp
  obtain hcase := hbase (__rejectOrLog r s) rfl
  refine ⟨?_, ?_, ?_, ?_, ?_, ?_⟩
  · rcases hcase with h | h <;> rw [h]
  · rcases hcase with h | h <;> rw [h]
  · rcases hcase with h | h <;> rw [h]
  · intro hsame
    have htruthy := sameErrorRef_truthy hsame
    simp [__rejectOrLog, hset, htruthy, hsame]
  · intro hdiff hdw
    simp only [__rejectOrLog, hset, Bool.not_true, Bool.false_eq_true, if_false,
      hdiff, Bool.not_false, Bool.or_true, if_true, hdw]
  · intro H
    simp only [reject, ExecState.assertStates, hex0, if_pos]

theorem C6_witness :
    ((execute trivialHooks (execInit true)).1.isSettled = true) ∧
    (__rejectOrLog (JSValue.str "late") (execute trivialHooks (execInit true)).1).error =
      (execute trivialHooks (execInit true)).1.error ∧
    (__rejectOrLog (JSValue.str "late") (execute trivialHooks (execInit true)).1).state =
      (execute trivialHooks (execInit true)).1.state :=
  ⟨by decide,
    (C6_post_settlement_second_rejection true _ (JSValue.str "late")
      (Relation.ReflTransGen.single (Step.executeStep trivialHooks (execInit true)))
      (by decide)).2.1,
    (C6_post_settlement_second_rejection true _ (JSValue.str "late")
      (Relation.ReflTransGen.single (Step.executeStep trivialHooks (execInit true)))
      (by decide)).1⟩

/-- C1: in every reachable execution state, once the `finished` bit is
set exactly one of the outcome bits `did` (done), `canceled`, `failed`
is set — never zero and never more than one — and no operation (any
`Step`) ever clears the `finished` bit again. -/
theorem C1_finished_single_outcome (dw : Bool) (s : ExecState) (hreach : Reachable dw s) :
    (s.isFinished = true →
      ((s.isDone = true ∧ s.isCanceled = false ∧ s.isFailed = false) ∨
       (s.isDone = false ∧ s.isCanceled = true ∧ s.isFailed = false) ∨
       (s.isDone = false ∧ s.isCanceled = false ∧ s.isFailed = true))) ∧
    (∀ s' : ExecState, Step s s' → s.isFinished = true → s'.isFinished = true) := by
  have hI := reachable_inv hreach
  have hOK := hI.1
  constructor
  · intro hfin
    simp only [ExecState.isFinished] at hfin
    simp only [ExecState.isDone, ExecState.isCanceled, ExecState.isFailed]
    rcases stateOK_cases hOK with h|h|h|h|h|h|h|h|h|h <;> rw [h] at hfin ⊢ <;>
      first
        | exact absurd hfin (by decide)
        | exact Or.inl ⟨by decide, by decide, by decide⟩
        | exact Or.inr (Or.inl ⟨by decide, by decide, by decide⟩)
        | exact Or.inr (Or.inr ⟨by decide, by decide, by decide⟩)
  · intro s' hstep hfin
    obtain ⟨hI', hle⟩ := step_inv hstep hI
    have hOK' := hI'.1
    simp only [ExecState.isFinished] at hfin ⊢
    rcases stateOK_cases hOK with h|h|h|h|h|h|h|h|h|h <;> rw [h] at hfin hle <;>
      first
        | exact absurd hfin (by decide)
        | (rcases stateOK_cases hOK' with h'|h'|h'|h'|h'|h'|h'|h'|h'|h' <;>
            rw [h'] at hle ⊢ <;>
            first | decide | (exfalso; revert hle; decide))

theorem C1_witness :
    ((execute trivialHooks (execInit true)).1.isFinished = true →
      (((execute trivialHooks (execInit true)).1.isDone = true ∧
        (execute trivialHooks (execInit true)).1.isCanceled = false ∧
        (execute trivialHooks (execInit true)).1.isFailed = false) ∨
       ((execute trivialHooks (execInit true)).1.isDone = false ∧
        (execute trivialHooks (execInit true)).1.isCanceled = true ∧
        (execute trivialHooks (execInit true)).1.isFailed = false) ∨
       ((execute trivialHooks (execInit true)).1.isDone = false ∧
        (execute trivialHooks (execInit true)).1.isCanceled = false ∧
        (execute trivialHooks (execInit true)).1.isFailed = true))) ∧
    (∀ s' : ExecState, Step (execute trivialHooks (execInit true)).1 s' →
      (execute trivialHooks (execInit true)).1.isFinished = true → s'.isFinished = true) :=
  C1_finished_single_outcome true (execute trivialHooks (execInit true)).1
    (Relation.ReflTransGen.single (Step.executeStep trivialHooks (execInit true)))

/-- C5: in every reachable execution state, no phase hook has run more
than once; every operation advances the state flag monotonically (the
flag encoding orders the phases unstarted < init < will < do); and
re-invoking `__executePhaseInit`, `__executePhaseWill` or
`__executePhaseDo` when the state is already at or past that phase is a
no-op that returns the state unchanged without running any hook. -/
theorem C5_monotonic_phases_hooks_once (dw : Bool) (s s' : ExecState) (H : Hooks)
    (hreach : Reachable dw s) :
    (s.hookRuns.count Phase.init ≤ 1 ∧ s.hookRuns.count Phase.will ≤ 1 ∧
     s.hookRuns.count Phase.doPhase ≤ 1 ∧ s.hookRuns.count Phase.finalPhase ≤ 1) ∧
    (Step s s' → s.state ≤ s'.state) ∧
    (States.unstarted < States.init ∧ States.init < States.will ∧ States.will < States.do_) ∧
    (States.init ≤ s.state → __executePhaseInit H s = (s, none)) ∧
    (States.will ≤ s.state → __executePhaseWill H s = (s, none)) ∧
    (States.do_ ≤ s.state → __executePhaseDo H s = (s, none)) := by
  have hI := reachable_inv hreach
  refine ⟨⟨hI.2.2.1, hI.2.2.2.1, hI.2.2.2.2.1, hI.2.2.2.2.2.1⟩, ?_, by decide, ?_, ?_, ?_⟩
  · intro hstep
    exact (step_inv hstep hI).2
  · intro hge
    simp only [__executePhaseInit, if_neg (not_lt.mpr hge)]
  · intro hge
    simp only [__executePhaseWill, if_neg (not_lt.mpr hge)]
  · intro hge
    simp only [__executePhaseDo, if_neg (not_lt.mpr hge)]

theorem C5_witness :
    (((execInit true).hookRuns.count Phase.init ≤ 1 ∧
      (execInit true).hookRuns.count Phase.will ≤ 1 ∧
      (execInit true).hookRuns.count Phase.doPhase ≤ 1 ∧
      (execInit true).hookRuns.count Phase.finalPhase ≤ 1) ∧
     (Step (execInit true) (execute trivialHooks (execInit true)).1 →
        (execInit true).state ≤ (execute trivialHooks (execInit true)).1.state) ∧
     (States.unstarted < States.init ∧ States.init < States.will ∧
      States.will < States.do_) ∧
     (States.init ≤ (execInit true).state →
        __executePhaseInit trivialHooks (execInit true) = (execInit true, none)) ∧
     (States.will ≤ (execInit true).state →
        __executePhaseWill trivialHooks (execInit true) = (execInit true, none)) ∧
     (States.do_ ≤ (execInit true).state →
        __executePhaseDo trivialHooks (execInit true) = (execInit true, none))) :=
  C5_monotonic_phases_hooks_once true (execInit true)
    (execute trivialHooks (execInit true)).1 trivialHooks Relation.ReflTransGen.refl

/-- C4: the promise control object is created once and cached —
requesting it again returns the identical control and does not change
the state — and in every reachable state it is consistent with
settlement: once the execution is finished the obtained promise is
resolved with the recorded result when done and rejected with the
recorded error otherwise, and before the execution is finished it is
pending (so a promise requested before, during, or after execution
settles exactly to the final result/error). -/
theorem C4_promise_cached_consistent (dw : Bool) (s : ExecState) (hreach : Reachable dw s) :
    promiseGet (promiseGet s).1 = ((promiseGet s).1, (promiseGet s).2) ∧
    (s.isFinished = true →
      (promiseGet s).2.st =
        (if s.isDone = true then PromiseSt.resolved s.result
         else PromiseSt.rejectedWith s.error)) ∧
    (s.isFinished = false → (promiseGet s).2.st = PromiseSt.pending) := by
  have hI := reachable_inv hreach
  have hP := hI.2.1
  refine ⟨?_, ?_, ?_⟩
  · rcases hpc : s.promiseControl with _ | pc <;> simp [promiseGet, hpc]
  · intro hfin
    rcases hpc : s.promiseControl with _ | pc
    · simp [promiseGet, hpc, __createPromiseControl, hfin]
    · simp only [promiseOKb, hpc, hfin, if_true, beq_iff_eq] at hP
      simp only [promiseGet, hpc]
      rw [hP, promiseExpected]
  · intro hfin
    rcases hpc : s.promiseControl with _ | pc
    · simp [promiseGet, hpc, __createPromiseControl, hfin]
    · simp only [promiseOKb, hpc, hfin, Bool.false_eq_true, if_false, beq_iff_eq] at hP
      simp only [promiseGet, hpc]
      exact hP

theorem C4_witness :
    (promiseGet (promiseGet (execute trivialHooks (execInit true)).1).1 =
      ((promiseGet (execute trivialHooks (execInit true)).1).1,
       (promiseGet (execute trivialHooks (execInit true)).1).2)) ∧
    ((execute trivialHooks (execInit true)).1.isFinished = true →
      (promiseGet (execute trivialHooks (execInit true)).1).2.st =
        (if (execute trivialHooks (execInit true)).1.isDone = true then
          PromiseSt.resolved (execute trivialHooks (execInit true)).1.result
         else PromiseSt.rejectedWith (execute trivialHooks (execInit true)).1.error)) ∧
    ((execute trivialHooks (execInit true)).1.isFinished = false →
      (promiseGet (execute trivialHooks (execInit true)).1).2.st = PromiseSt.pending) :=
  C4_promise_cached_consistent true (execute trivialHooks (execInit true)).1
    (Relation.ReflTransGen.single (Step.executeStep trivialHooks (execInit true)))

/-- C7: calling `reject(reason)` on an execution still in the unstarted
state does not throw and runs the finally phase synchronously inside
the `reject()` call itself: upon return the execution is finished
(`isFinished`), rejected, and settled — for any subclass hooks and any
rejection reason. -/
theorem C7_reject_unstarted_finishes_synchronously (H : Hooks) (r : JSValue) (dw : Bool) :
    (reject H r (execInit dw)).2 = none ∧
    (reject H r (execInit dw)).1.isFinished = true ∧
    (reject H r (execInit dw)).1.isRejected = true ∧
    (reject H r (execInit dw)).1.isSettled = true := by
  have hex : ¬(execInit dw).state &&& executingUnsettledStates = 0 := by
    show ¬States.unstarted &&& executingUnsettledStates = 0
    decide
  have hwe : (execInit dw).isExecuting = false := rfl
  simp only [reject, ExecState.assertStates, if_neg hex, hwe, Bool.not_false, if_true]
  rcases hc : (classifyReason r).2 with _ | _
  · have hd : __reject r (execInit dw) =
        { execInit dw with
          state := States.canceled
          error := some (classifyReason r).1
          result := .undef } := by
      rw [__reject_eq]
      simp only [hc, Bool.false_eq_true, if_false]
    rw [hd]
    have hOKd : stateOK ({ execInit dw with
        state := States.canceled
        error := some (classifyReason r).1
        result := JSValue.undef } : ExecState).state = true := by
      show stateOK States.canceled = true; decide
    have hsetd : ({ execInit dw with
        state := States.canceled
        error := some (classifyReason r).1
        result := JSValue.undef } : ExecState).isSettled = true := by
      show (States.canceled &&& settledStates != 0) = true; decide
    have hfind : ({ execInit dw with
        state := States.canceled
        error := some (classifyReason r).1
        result := JSValue.undef } : ExecState).state &&& States.finished = 0 := by
      show States.canceled &&& States.finished = 0; decide
    have hltd : ({ execInit dw with
        state := States.canceled
        error := some (classifyReason r).1
        result := JSValue.undef } : ExecState).state < States.finished := by
      show States.canceled < States.finished; decide
    simp only [__executePhaseFinally, if_pos hltd, hsetd, Bool.not_true, Bool.false_eq_true,
      if_false]
    obtain ⟨e1, _, _, _, _⟩ := finallyCore_char H _ hOKd hsetd hfind
    refine ⟨by trivial, ?_, ?_, ?_⟩
    · simp only [ExecState.isFinished, e1]
      show ((States.canceled ||| States.finished) &&& States.finished != 0) = true
      decide
    · simp only [ExecState.isRejected, e1]
      show ((States.canceled ||| States.finished) &&& rejectedStates != 0) = true
      decide
    · simp only [ExecState.isSettled, e1]
      show ((States.canceled ||| States.finished) &&& settledStates != 0) = true
      decide
  · have hd : __reject r (execInit dw) =
        { execInit dw with
          state := States.failed
          error := some (classifyReason r).1
          result := .undef } := by
      rw [__reject_eq]
      simp only [hc, eq_self_iff_true, if_true]
    rw [hd]
    have hOKd : stateOK ({ execInit dw with
        state := States.failed
        error := some (classifyReason r).1
        result := JSValue.undef } : ExecState).state = true := by
      show stateOK States.failed = true; decide
    have hsetd : ({ execInit dw with
        state := States.failed
        error := some (classifyReason r).1
        result := JSValue.undef } : ExecState).isSettled = true := by
      show (States.failed &&& settledStates != 0) = true; decide
    have hfind : ({ execInit dw with
        state := States.failed
        error := some (classifyReason r).1
        result := JSValue.undef } : ExecState).state &&& States.finished = 0 := by
      show States.failed &&& States.finished = 0; decide
    have hltd : ({ execInit dw with
        state := States.failed
        error := some (classifyReason r).1
        result := JSValue.undef } : ExecState).state < States.finished := by
      show States.failed < States.finished; decide
    simp only [__executePhaseFinally, if_pos hltd, hsetd, Bool.not_true, Bool.false_eq_true,
      if_false]
    obtain ⟨e1, _, _, _, _⟩ := finallyCore_char H _ hOKd hsetd hfind
    refine ⟨by trivial, ?_, ?_, ?_⟩
    · simp only [ExecState.isFinished, e1]
      show ((States.failed ||| States.finished) &&& States.finished != 0) = true
      decide
    · simp only [ExecState.isRejected, e1]
      show ((States.failed ||| States.finished) &&& rejectedStates != 0) = true
      decide
    · simp only [ExecState.isSettled, e1]
      show ((States.failed ||| States.finished) &&& settledStates != 0) = true
      decide

/-- C9: whatever `_onPhaseFinally` does — in particular whatever error it
throws — is caught and cannot affect the outcome: for any two subclasses
`H₁`, `H₂` (e.g. one whose finally hook throws and one whose finally
hook returns normally), `__executePhaseFinally` produces the same state
flag (hence the same outcome kind did/canceled/failed), the same
recorded result, the same recorded error, and the same thrown-error
behaviour; and whenever the finally phase actually runs (the execution
is settled, or in the `do` state, and not yet finished) the finished bit
is still set. -/
theorem C9_finally_hook_errors_only_logged (H₁ H₂ : Hooks) (s : ExecState)
    (hOK : stateOK s.state = true) :
    (__executePhaseFinally H₁ s).1.state = (__executePhaseFinally H₂ s).1.state ∧
    (__executePhaseFinally H₁ s).1.error = (__executePhaseFinally H₂ s).1.error ∧
    (__executePhaseFinally H₁ s).1.result = (__executePhaseFinally H₂ s).1.result ∧
    (__executePhaseFinally H₁ s).2 = (__executePhaseFinally H₂ s).2 ∧
    ((s.isSettled = true ∨ s.state = States.do_) → s.state &&& States.finished = 0 →
      (__executePhaseFinally H₁ s).1.isFinished = true) := by
  by_cases hlt : s.state < States.finished
  · rcases hset : s.isSettled with _ | _
    · by_cases hdo : s.state &&& States.do_ = 0
      · -- unsettled, not in do: done() throws identically in both runs
        simp only [__executePhaseFinally, if_pos hlt, hset, Bool.not_false, if_true,
          doneFn_not_do hdo]
        refine ⟨by trivial, by trivial, by trivial, by trivial, fun hrun _ => ?_⟩
        rcases hrun with hrun | hrun
        · simp [hset] at hrun
        · rw [hrun] at hdo; exact absurd hdo (by decide)
      · -- state = do: auto-fulfil then the core in both runs
        have hsetd : ({ s with result := JSValue.undef, state := States.did } :
            ExecState).isSettled = true := by
          show (States.did &&& settledStates != 0) = true; decide
        have hOKd : stateOK ({ s with result := JSValue.undef, state := States.did } :
            ExecState).state = true := by
          show stateOK States.did = true; decide
        have hfind : ({ s with result := JSValue.undef, state := States.did } :
            ExecState).state &&& States.finished = 0 := by
          show States.did &&& States.finished = 0; decide
        obtain ⟨a1, a2, a3, a4, a5⟩ := finallyCore_char H₁ _ hOKd hsetd hfind
        obtain ⟨b1, b2, b3, b4, b5⟩ := finallyCore_char H₂ _ hOKd hsetd hfind
        simp only [__executePhaseFinally, if_pos hlt, hset, Bool.not_false, if_true,
          doneFn_do hdo]
        refine ⟨by rw [a1, b1], by rw [a2, b2], by rw [a3, b3], by trivial, fun _ _ => ?_⟩
        simp only [ExecState.isFinished, a1]
        show ((States.did ||| States.finished) &&& States.finished != 0) = true
        decide
    · -- settled: the core runs directly in both runs
      have hfin0 : s.state &&& States.finished = 0 := by
        rcases stateOK_cases hOK with h|h|h|h|h|h|h|h|h|h <;> rw [h] at hlt ⊢ <;>
          first | decide | exact absurd hlt (by decide)
      obtain ⟨a1, a2, a3, a4, a5⟩ := finallyCore_char H₁ s hOK hset hfin0
      obtain ⟨b1, b2, b3, b4, b5⟩ := finallyCore_char H₂ s hOK hset hfin0
      simp only [__executePhaseFinally, if_pos hlt, hset, Bool.not_true, Bool.false_eq_true,
        if_false]
      refine ⟨by rw [a1, b1], by rw [a2, b2], by rw [a3, b3], by trivial, fun _ _ => ?_⟩
      simp only [ExecState.isFinished, a1]
      rcases settled_unfinished_cases hOK (by simpa [ExecState.isSettled] using hset) hfin0
        with h|h|h <;> rw [h] <;> decide
  · simp only [__executePhaseFinally, if_neg hlt]
    refine ⟨by trivial, by trivial, by trivial, by trivial, fun _ hfin0 => ?_⟩
    rcases stateOK_cases hOK with h|h|h|h|h|h|h|h|h|h <;> rw [h] at hlt hfin0 <;>
      first
        | exact absurd (by decide) hlt
        | exact absurd hfin0 (by decide)

theorem C9_witness :
    ((__executePhaseFinally { trivialHooks with
        onFinally := [HookCmd.hThrow (JSError.plainError "boom")] }
        (__reject (JSValue.str "halt") (execInit true))).1.state =
      (__executePhaseFinally trivialHooks
        (__reject (JSValue.str "halt") (execInit true))).1.state) ∧
    ((__executePhaseFinally { trivialHooks with
        onFinally := [HookCmd.hThrow (JSError.plainError "boom")] }
        (__reject (JSValue.str "halt") (execInit true))).1.error =
      (__executePhaseFinally trivialHooks
        (__reject (JSValue.str "halt") (execInit true))).1.error) ∧
    ((__executePhaseFinally { trivialHooks with
        onFinally := [HookCmd.hThrow (JSError.plainError "boom")] }
        (__reject (JSValue.str "halt") (execInit true))).1.result =
      (__executePhaseFinally trivialHooks
        (__reject (JSValue.str "halt") (execInit true))).1.result) ∧
    ((__executePhaseFinally { trivialHooks with
        onFinally := [HookCmd.hThrow (JSError.plainError "boom")] }
        (__reject (JSValue.str "halt") (execInit true))).2 =
      (__executePhaseFinally trivialHooks
        (__reject (JSValue.str "halt") (execInit true))).2) ∧
    (((__reject (JSValue.str "halt") (execInit true)).isSettled = true ∨
        (__reject (JSValue.str "halt") (execInit true)).state = States.do_) →
      (__reject (JSValue.str "halt") (execInit true)).state &&& States.finished = 0 →
      (__executePhaseFinally { trivialHooks with
        onFinally := [HookCmd.hThrow (JSError.plainError "boom")] }
        (__reject (JSValue.str "halt") (execInit true))).1.isFinished = true) :=
  C9_finally_hook_errors_only_logged
    { trivialHooks with onFinally := [HookCmd.hThrow (JSError.plainError "boom")] }
    trivialHooks (__reject (JSValue.str "halt") (execInit true)) (by decide)

/-- A successful init phase run from a fresh (unstarted, no hooks yet)
entry state that leaves the execution unsettled puts the state flag at
`init`, records exactly one init-hook run, and keeps any existing
promise control. -/
theorem initPhase_fresh (H : Hooks) (t s1 : ExecState)
    (ht : t.state = States.unstarted) (hruns : t.hookRuns = [])
    (hinit : __executePhaseInit H t = (s1, none))
    (hunsettled : s1.isSettled = false) :
    s1.state = States.init ∧ s1.hookRuns = [Phase.init] ∧
    (∀ pc : PromiseControl, t.promiseControl = some pc → s1.promiseControl = some pc) := by
  have hlt : t.state < States.init := by rw [ht]; decide
  simp only [__executePhaseInit, if_pos hlt] at hinit
  have hst := runScript_state_not_do H.onInit
    { t with state := States.init, hookRuns := t.hookRuns ++ [Phase.init] }
    (by show States.init &&& States.do_ = 0; decide)
  rw [hinit] at hst
  replace hst : s1.state = States.init ∨ s1.state = States.canceled ∨
      s1.state = States.failed := hst
  have hpres := runScript_scriptPres H.onInit
    { t with state := States.init, hookRuns := t.hookRuns ++ [Phase.init] }
  rw [hinit] at hpres
  have hpruns : s1.hookRuns = t.hookRuns ++ [Phase.init] := hpres.1
  refine ⟨?_, ?_, ?_⟩
  · rcases hst with h | h | h
    · exact h
    · exfalso
      simp only [ExecState.isSettled, h] at hunsettled
      exact absurd hunsettled (by decide)
    · exfalso
      simp only [ExecState.isSettled, h] at hunsettled
      exact absurd hunsettled (by decide)
  · rw [hpruns, hruns]
    rfl
  · intro pc hpc
    have hkeep := runScript_promiseControl_some H.onInit
      { t with state := States.init, hookRuns := t.hookRuns ++ [Phase.init] } pc hpc
    rw [hinit] at hkeep
    exact hkeep

/-- The will phase entered at `init` with a failing validation rejects
with the first validation error (no will hook, no lock). -/
theorem chain_invalid_will (H : Hooks) (s1 : ExecState) (e : JSError) (es : List JSError)
    (c : Bool) (hcr : classifyReason (JSValue.error e) = (e, c))
    (hv : H.validateErrors = some (e :: es)) (hs1 : s1.state = States.init) :
    __executePhaseWill H s1 =
      ({ s1 with
        state := if c then States.failed else States.canceled
        error := some e
        result := .undef }, none) := by
  have hlt : s1.state < States.will := by rw [hs1]; decide
  rw [willPhase_invalid hv hlt, __reject_eq, hcr]

/-- The common core of claims C3 and C10: running the full `execute`
driver over an invalid action (first validation error `e` with
classification bit `c`) from a fresh execution whose init hook does not
settle it ends with the first validation error recorded, a rejected and
settled execution whose failed/canceled outcome is exactly `c`, and the
do-phase hook never runs. -/
theorem executeInvalid_core (H : Hooks) (e : JSError) (es : List JSError) (dw : Bool)
    (s1 : ExecState) (c : Bool) (hcr : classifyReason (JSValue.error e) = (e, c))
    (hv : H.validateErrors = some (e :: es))
    (hinit : __executePhaseInit H { execInit dw with isInside := true } = (s1, none))
    (hunsettled : s1.isSettled = false) :
    (execute H (execInit dw)).1.error = some e ∧
    (execute H (execInit dw)).1.isRejected = true ∧
    (execute H (execInit dw)).1.isSettled = true ∧
    (execute H (execInit dw)).1.isFailed = c ∧
    (execute H (execInit dw)).1.isCanceled = !c ∧
    (execute H (execInit dw)).1.hookRuns.count Phase.doPhase = 0 := by
  obtain ⟨hs1, hr1, _⟩ :=
    initPhase_fresh H { execInit dw with isInside := true } s1 rfl rfl hinit hunsettled
  have hwill := chain_invalid_will H s1 e es c hcr hv hs1
  have hguard : ¬States.will < (execInit dw).state := by
    show ¬States.will < States.unstarted; decide
  have hin : (execInit dw).isInside = false := rfl
  cases c with
  | false =>
    simp only [Bool.false_eq_true, if_false] at hwill
    have hdo : __executePhaseDo H
        { s1 with state := States.canceled, error := some e, result := JSValue.undef } =
        ({ s1 with state := States.canceled, error := some e, result := JSValue.undef },
          none) := by
      simp only [__executePhaseDo,
        if_neg (by show ¬States.canceled < States.do_; decide)]
    have hchain : __executePhasesInitWillDo H { execInit dw with isInside := true } =
        { s1 with state := States.canceled, error := some e, result := JSValue.undef } := by
      simp only [__executePhasesInitWillDo, hinit, hwill, hdo]
    have hsetr : ({ s1 with state := States.canceled, error := some e, result := JSValue.undef } : ExecState).isSettled = true := by
      show (States.canceled &&& settledStates != 0) = true; decide
    have hltr : ({ s1 with state := States.canceled, error := some e, result := JSValue.undef } : ExecState).state < States.finished := by
      show States.canceled < States.finished; decide
    have hfinred : __executePhaseFinally H
        { s1 with state := States.canceled, error := some e, result := JSValue.undef } =
        (__executePhaseFinallyCore H
          { s1 with state := States.canceled, error := some e, result := JSValue.undef },
          none) := by
      simp only [__executePhaseFinally, if_pos hltr, hsetr, Bool.not_true,
        Bool.false_eq_true, if_false]
    obtain ⟨e1, e2, e3, e4, _⟩ := finallyCore_char H
      { s1 with state := States.canceled, error := some e, result := JSValue.undef }
      (by show stateOK States.canceled = true; decide) hsetr
      (by show States.canceled &&& States.finished = 0; decide)
    cases hsync : H.isSync with
    | false =>
      have hexec : (execute H (execInit dw)).1 =
          { s1 with state := States.canceled, error := some e, result := JSValue.undef, isInside := false } := by
        simp only [execute, if_neg hguard, __callInside, hin, Bool.false_eq_true, if_false,
          hsync, __executeAsyncAction, hchain]
      rw [hexec]
      refine ⟨rfl, ?_, ?_, ?_, ?_, ?_⟩
      · show (States.canceled &&& rejectedStates != 0) = true; decide
      · show (States.canceled &&& settledStates != 0) = true; decide
      · show (States.canceled &&& States.failed != 0) = false; decide
      · show (States.canceled &&& States.canceled != 0) = !false; decide
      · show s1.hookRuns.count Phase.doPhase = 0
        rw [hr1]; decide
    | true =>
      have hexec : (execute H (execInit dw)).1 =
          { (__executePhaseFinallyCore H
              { s1 with state := States.canceled, error := some e, result := JSValue.undef }) with isInside := false } := by
        simp only [execute, if_neg hguard, __callInside, hin, Bool.false_eq_true, if_false,
          hsync, eq_self_iff_true, if_true, __executeSyncAction, hchain, hfinred]
      rw [hexec]
      refine ⟨?_, ?_, ?_, ?_, ?_, ?_⟩
      · show (__executePhaseFinallyCore H _).error = some e
        rw [e2]
      · show ((__executePhaseFinallyCore H _).state &&& rejectedStates != 0) = true
        rw [e1]
        show ((States.canceled ||| States.finished) &&& rejectedStates != 0) = true
        decide
      · show ((__executePhaseFinallyCore H _).state &&& settledStates != 0) = true
        rw [e1]
        show ((States.canceled ||| States.finished) &&& settledStates != 0) = true
        decide
      · show ((__executePhaseFinallyCore H _).state &&& States.failed != 0) = false
        rw [e1]
        show ((States.canceled ||| States.finished) &&& States.failed != 0) = false
        decide
      · show ((__executePhaseFinallyCore H _).state &&& States.canceled != 0) = !false
        rw [e1]
        show ((States.canceled ||| States.finished) &&& States.canceled != 0) = !false
        decide
      · show (__executePhaseFinallyCore H _).hookRuns.count Phase.doPhase = 0
        rw [e4, count_append_other _ (by decide)]
        show s1.hookRuns.count Phase.doPhase = 0
        rw [hr1]; decide
  | true =>
    simp only [eq_self_iff_true, if_true] at hwill
    have hdo : __executePhaseDo H
        { s1 with state := States.failed, error := some e, result := JSValue.undef } =
        ({ s1 with state := States.failed, error := some e, result := JSValue.undef },
          none) := by
      simp only [__executePhaseDo,
        if_neg (by show ¬States.failed < States.do_; decide)]
    have hchain : __executePhasesInitWillDo H { execInit dw with isInside := true } =
        { s1 with state := States.failed, error := some e, result := JSValue.undef } := by
      simp only [__executePhasesInitWillDo, hinit, hwill, hdo]
    have hsetr : ({ s1 with state := States.failed, error := some e, result := JSValue.undef } : ExecState).isSettled = true := by
      show (States.failed &&& settledStates != 0) = true; decide
    have hltr : ({ s1 with state := States.failed, error := some e, result := JSValue.undef } : ExecState).state < States.finished := by
      show States.failed < States.finished; decide
    have hfinred : __executePhaseFinally H
        { s1 with state := States.failed, error := some e, result := JSValue.undef } =
        (__executePhaseFinallyCore H
          { s1 with state := States.failed, error := some e, result := JSValue.undef },
          none) := by
      simp only [__executePhaseFinally, if_pos hltr, hsetr, Bool.not_true,
        Bool.false_eq_true, if_false]
    obtain ⟨e1, e2, e3, e4, _⟩ := finallyCore_char H
      { s1 with state := States.failed, error := some e, result := JSValue.undef }
      (by show stateOK States.failed = true; decide) hsetr
      (by show States.failed &&& States.finished = 0; decide)
    cases hsync : H.isSync with
    | false =>
      have hexec : (execute H (execInit dw)).1 =
          { s1 with state := States.failed, error := some e, result := JSValue.undef, isInside := false } := by
        simp only [execute, if_neg hguard, __callInside, hin, Bool.false_eq_true, if_false,
          hsync, __executeAsyncAction, hchain]
      rw [hexec]
      refine ⟨rfl, ?_, ?_, ?_, ?_, ?_⟩
      · show (States.failed &&& rejectedStates != 0) = true; decide
      · show (States.failed &&& settledStates != 0) = true; decide
      · show (States.failed &&& States.failed != 0) = true; decide
      · show (States.failed &&& States.canceled != 0) = !true; decide
      · show s1.hookRuns.count Phase.doPhase = 0
        rw [hr1]; decide
    | true =>
      have hexec : (execute H (execInit dw)).1 =
          { (__executePhaseFinallyCore H
              { s1 with state := States.failed, error := some e, result := JSValue.undef }) with isInside := false } := by
        simp only [execute, if_neg hguard, __callInside, hin, Bool.false_eq_true, if_false,
          hsync, eq_self_iff_true, if_true, __executeSyncAction, hchain, hfinred]
      rw [hexec]
      refine ⟨?_, ?_, ?_, ?_, ?_, ?_⟩
      · show (__executePhaseFinallyCore H _).error = some e
        rw [e2]
      · show ((__executePhaseFinallyCore H _).state &&& rejectedStates != 0) = true
        rw [e1]
        show ((States.failed ||| States.finished) &&& rejectedStates != 0) = true
        decide
      · show ((__executePhaseFinallyCore H _).state &&& settledStates != 0) = true
        rw [e1]
        show ((States.failed ||| States.finished) &&& settledStates != 0) = true
        decide
      · show ((__executePhaseFinallyCore H _).state &&& States.failed != 0) = true
        rw [e1]
        show ((States.failed ||| States.finished) &&& States.failed != 0) = true
        decide
      · show ((__executePhaseFinallyCore H _).state &&& States.canceled != 0) = !true
        rw [e1]
        show ((States.failed ||| States.finished) &&& States.canceled != 0) = !true
        decide
      · show (__executePhaseFinallyCore H _).hookRuns.count Phase.doPhase = 0
        rw [e4, count_append_other _ (by decide)]
        show s1.hookRuns.count Phase.doPhase = 0
        rw [hr1]; decide

/-- C3: if the action's `validate()` returns one or more errors during
the init→will transition (and the init hook itself did not settle the
execution), the execution is rejected with the first validation error,
the do-phase hook `_onPhaseDo` never runs, and the execution settles as
failed — or as canceled exactly when that validation error is a
user-facing error (`UserError` and not `RuntimeError`). -/
theorem C3_validation_failure_skips_do (H : Hooks) (e : JSError) (es : List JSError)
    (dw : Bool) (s1 : ExecState)
    (hv : H.validateErrors = some (e :: es))
    (hinit : __executePhaseInit H { execInit dw with isInside := true } = (s1, none))
    (hunsettled : s1.isSettled = false) :
    (execute H (execInit dw)).1.error = some e ∧
    (execute H (execInit dw)).1.isRejected = true ∧
    (execute H (execInit dw)).1.isSettled = true ∧
    ((execute H (execInit dw)).1.isFailed = true ↔
      (!e.isUserError || e.isRuntimeError) = true) ∧
    ((execute H (execInit dw)).1.isCanceled = true ↔
      (e.isUserError && !e.isRuntimeError) = true) ∧
    (execute H (execInit dw)).1.hookRuns.count Phase.doPhase = 0 := by
  have hcr : classifyReason (JSValue.error e) = (e, !e.isUserError || e.isRuntimeError) := rfl
  obtain ⟨h1, h2, h3, h4, h5, h6⟩ :=
    executeInvalid_core H e es dw s1 (!e.isUserError || e.isRuntimeError) hcr hv hinit
      hunsettled
  refine ⟨h1, h2, h3, ?_, ?_, h6⟩
  · rw [h4]
  · rw [h5]
    cases hu : e.isUserError <;> cases hrt : e.isRuntimeError <;> decide

def C3hooks : Hooks :=
  { trivialHooks with validateErrors := some [JSError.plainError "invalid"] }

theorem C3_witness :
    (execute C3hooks (execInit true)).1.error = some (JSError.plainError "invalid") ∧
    (execute C3hooks (execInit true)).1.isRejected = true ∧
    (execute C3hooks (execInit true)).1.isSettled = true ∧
    ((execute C3hooks (execInit true)).1.isFailed = true ↔
      (!(JSError.plainError "invalid").isUserError ||
        (JSError.plainError "invalid").isRuntimeError) = true) ∧
    ((execute C3hooks (execInit true)).1.isCanceled = true ↔
      ((JSError.plainError "invalid").isUserError &&
        !(JSError.plainError "invalid").isRuntimeError) = true) ∧
    (execute C3hooks (execInit true)).1.hookRuns.count Phase.doPhase = 0 :=
  C3_validation_failure_skips_do C3hooks (JSError.plainError "invalid") [] true
    { execInit true with isInside := true, state := States.init, hookRuns := [Phase.init] }
    rfl rfl (by decide)

/-- C10: calling `executeWill()` on an execution whose action's
`validate()` returns a non-empty error list (with a previously requested
promise, and an init hook that does not settle the execution) leaves the
execution settled and rejected but not finished: `isFinished` stays
false, the finally hook `_onPhaseFinally` does not run, the previously
requested promise control remains pending, and a subsequent `execute()`
call throws the usage error `MSG_STATE_EXECUTE`, changing nothing. -/
theorem C10_executeWill_invalid_settled_not_finished (H : Hooks) (e : JSError)
    (es : List JSError) (dw : Bool) (s1 : ExecState)
    (hv : H.validateErrors = some (e :: es))
    (hinit : __executePhaseInit H
      { (promiseGet (execInit dw)).1 with isInside := true } = (s1, none))
    (hunsettled : s1.isSettled = false) :
    (executeWill H (promiseGet (execInit dw)).1).1.isSettled = true ∧
    (executeWill H (promiseGet (execInit dw)).1).1.isRejected = true ∧
    (executeWill H (promiseGet (execInit dw)).1).1.isFinished = false ∧
    (executeWill H (promiseGet (execInit dw)).1).1.hookRuns.count Phase.finalPhase = 0 ∧
    (executeWill H (promiseGet (execInit dw)).1).1.promiseControl =
      some { gen := 1, st := PromiseSt.pending } ∧
    execute H (executeWill H (promiseGet (execInit dw)).1).1 =
      ((executeWill H (promiseGet (execInit dw)).1).1,
        some (JSError.operationInvalidError MSG_STATE_EXECUTE)) := by
  obtain ⟨hs1, hr1, hkeep⟩ := initPhase_fresh H
    { (promiseGet (execInit dw)).1 with isInside := true } s1 rfl rfl hinit hunsettled
  have hpcget : ({ (promiseGet (execInit dw)).1 with
      isInside := true } : ExecState).promiseControl =
      some { gen := 1, st := PromiseSt.pending } := by
    show (promiseGet (execInit dw)).1.promiseControl =
      some { gen := 1, st := PromiseSt.pending }
    simp [promiseGet, execInit, __createPromiseControl, ExecState.isFinished,
      ExecState.isDone, States.finished, States.did]
    decide
  have hpc1 : s1.promiseControl = some { gen := 1, st := PromiseSt.pending } :=
    hkeep { gen := 1, st := PromiseSt.pending } hpcget
  have hguard0 : ¬States.will < (promiseGet (execInit dw)).1.state := by
    show ¬States.will < States.unstarted; decide
  have hin0 : (promiseGet (execInit dw)).1.isInside = false := rfl
  have hcr : classifyReason (JSValue.error e) = (e, !e.isUserError || e.isRuntimeError) := rfl
  cases hcB : (!e.isUserError || e.isRuntimeError) with
  | false =>
    have hcr' : classifyReason (JSValue.error e) = (e, false) := by rw [hcr, hcB]
    have hwill := chain_invalid_will H s1 e es false hcr' hv hs1
    simp only [Bool.false_eq_true, if_false] at hwill
    have hchainIW : __executePhasesInitWill H
        { (promiseGet (execInit dw)).1 with isInside := true } =
        { s1 with state := States.canceled, error := some e, result := JSValue.undef } := by
      simp only [__executePhasesInitWill, hinit, hwill]
    have hW : (executeWill H (promiseGet (execInit dw)).1).1 =
        { s1 with state := States.canceled, error := some e, result := JSValue.undef, isInside := false } := by
      simp only [executeWill, if_neg hguard0, __callInside, hin0, Bool.false_eq_true,
        if_false, hchainIW]
    rw [hW]
    refine ⟨?_, ?_, ?_, ?_, ?_, ?_⟩
    · show (States.canceled &&& settledStates != 0) = true; decide
    · show (States.canceled &&& rejectedStates != 0) = true; decide
    · show (States.canceled &&& States.finished != 0) = false; decide
    · show s1.hookRuns.count Phase.finalPhase = 0
      rw [hr1]; decide
    · exact hpc1
    · have hgt : States.will < ({ s1 with state := States.canceled, error := some e, result := JSValue.undef, isInside := false } : ExecState).state := by
        show States.will < States.canceled; decide
      simp only [execute, if_pos hgt]
  | true =>
    have hcr' : classifyReason (JSValue.error e) = (e, true) := by rw [hcr, hcB]
    have hwill := chain_invalid_will H s1 e es true hcr' hv hs1
    simp only [eq_self_iff_true, if_true] at hwill
    have hchainIW : __executePhasesInitWill H
        { (promiseGet (execInit dw)).1 with isInside := true } =
        { s1 with state := States.failed, error := some e, result := JSValue.undef } := by
      simp only [__executePhasesInitWill, hinit, hwill]
    have hW : (executeWill H (promiseGet (execInit dw)).1).1 =
        { s1 with state := States.failed, error := some e, result := JSValue.undef, isInside := false } := by
      simp only [executeWill, if_neg hguard0, __callInside, hin0, Bool.false_eq_true,
        if_false, hchainIW]
    rw [hW]
    refine ⟨?_, ?_, ?_, ?_, ?_, ?_⟩
    · show (States.failed &&& settledStates != 0) = true; decide
    · show (States.failed &&& rejectedStates != 0) = true; decide
    · show (States.failed &&& States.finished != 0) = false; decide
    · show s1.hookRuns.count Phase.finalPhase = 0
      rw [hr1]; decide
    · exact hpc1
    · have hgt : States.will < ({ s1 with state := States.failed, error := some e, result := JSValue.undef, isInside := false } : ExecState).state := by
        show States.will < States.failed; decide
      simp only [execute, if_pos hgt]

theorem C10_witness :
    (executeWill C3hooks (promiseGet (execInit true)).1).1.isSettled = true ∧
    (executeWill C3hooks (promiseGet (execInit true)).1).1.isRejected = true ∧
    (executeWill C3hooks (promiseGet (execInit true)).1).1.isFinished = false ∧
    (executeWill C3hooks (promiseGet (execInit true)).1).1.hookRuns.count
      Phase.finalPhase = 0 ∧
    (executeWill C3hooks (promiseGet (execInit true)).1).1.promiseControl =
      some { gen := 1, st := PromiseSt.pending } ∧
    execute C3hooks (executeWill C3hooks (promiseGet (execInit true)).1).1 =
      ((executeWill C3hooks (promiseGet (execInit true)).1).1,
        some (JSError.operationInvalidError MSG_STATE_EXECUTE)) :=
  C10_executeWill_invalid_settled_not_finished C3hooks (JSError.plainError "invalid") []
    true
    { (promiseGet (execInit true)).1 with
      isInside := true
      state := States.init
      hookRuns := [Phase.init] }
    rfl rfl (by decide)

end PentahoAction
